import Mathlib

/-!
Verification of the review/revision loop engine and its orchestration layer of
the podcast-pipeline repository, as a shallow embedding of
`src/podcast_pipeline/review_loop_engine.py`,
`src/podcast_pipeline/review_loop_orchestrator.py` and the parts of
`src/podcast_pipeline/domain/models.py` / `src/podcast_pipeline/workspace_store.py`
that these two modules use.

Conventions of the embedding:
* Python `str` is `String`, `int` counters are `Nat`, `datetime` timestamps are
  `Nat` (only their order matters), `uuid` identifiers are their string
  rendering (`str(uuid)`), and optional values are `Option`.
* Code that can raise (`ValueError`, agent failures, pydantic validation)
  returns `Except String`.
* Agent capabilities are function values.  The creator may carry mutable
  closure state (the orchestrator's `_SeededCreator` has a `_used` flag), so
  creators are modelled in state-passing style over an arbitrary state type.
* File paths are workspace-root-relative strings, computed exactly as
  `EpisodeWorkspaceLayout` computes them (including `_safe_path_segment`).
* `ProtocolWrite.json_data` is a JSON rendering of either one
  `LoopProtocolIteration` or one `LoopProtocolState`; since that rendering is
  injective in the data, the payload is modelled as the data itself.
* Randomly generated identifiers (`ReviewIssue.issue_id`) and the
  markdown-to-HTML rendering of mirror files are external to the decision
  logic; the former is omitted from `ReviewIssue`, the latter is a parameter.
-/

/-! ## Domain model (`domain/models.py`) -/

/-- `TextFormat` from `domain/models.py`. -/
inductive TextFormat where
  | markdown
  | plain
  | html
deriving DecidableEq

/-- `AssetKind` from `domain/models.py`. -/
inductive AssetKind where
  | description
  | shownotes
  | summary_short
  | title_detail
  | title_seo
  | subtitle_auphonic
  | slug
  | cms_tags
  | audio_tags
  | itunes_keywords
  | mastodon
  | linkedin
  | youtube_description
deriving DecidableEq

/-- The string value of an `AssetKind` member. -/
def AssetKind.value : AssetKind → String
  | .description => "description"
  | .shownotes => "shownotes"
  | .summary_short => "summary_short"
  | .title_detail => "title_detail"
  | .title_seo => "title_seo"
  | .subtitle_auphonic => "subtitle_auphonic"
  | .slug => "slug"
  | .cms_tags => "cms_tags"
  | .audio_tags => "audio_tags"
  | .itunes_keywords => "itunes_keywords"
  | .mastodon => "mastodon"
  | .linkedin => "linkedin"
  | .youtube_description => "youtube_description"

/-- `AssetKind(value)` lookup; `none` models the `ValueError` branch that
`_asset_kind` in the orchestrator turns into `None`. -/
def assetKindOfString (s : String) : Option AssetKind :=
  if s = "description" then some .description
  else if s = "shownotes" then some .shownotes
  else if s = "summary_short" then some .summary_short
  else if s = "title_detail" then some .title_detail
  else if s = "title_seo" then some .title_seo
  else if s = "subtitle_auphonic" then some .subtitle_auphonic
  else if s = "slug" then some .slug
  else if s = "cms_tags" then some .cms_tags
  else if s = "audio_tags" then some .audio_tags
  else if s = "itunes_keywords" then some .itunes_keywords
  else if s = "mastodon" then some .mastodon
  else if s = "linkedin" then some .linkedin
  else if s = "youtube_description" then some .youtube_description
  else none

/-- `ReviewVerdict` from `domain/models.py`. -/
inductive ReviewVerdict where
  | ok
  | changes_requested
  | needs_human
deriving DecidableEq

/-- `IssueSeverity` from `domain/models.py`. -/
inductive IssueSeverity where
  | error
  | warning
deriving DecidableEq

/-- `ReviewIssue` from `domain/models.py`.  The randomly generated `issue_id`
is omitted; `field` keeps its source name. -/
structure ReviewIssue where
  severity : IssueSeverity
  message : String
  code : Option String
  field : Option String
deriving DecidableEq

/-- `Candidate` from `domain/models.py`.  `candidate_id` is the string
rendering of the UUID, `created_at` a timestamp, `provenance` the opaque
`(kind, ref)` pairs. -/
structure Candidate where
  candidate_id : String
  asset_id : String
  format : TextFormat
  content : String
  created_at : Nat
  provenance : List (String × String)
deriving DecidableEq

/-- `ReviewIteration` from `domain/models.py`. -/
structure ReviewIteration where
  iteration : Nat
  verdict : ReviewVerdict
  issues : List ReviewIssue
  reviewer : Option String
  created_at : Nat
  summary : Option String
  provenance : List (String × String)
deriving DecidableEq

/-! ## Engine data model (`review_loop_engine.py`) -/

/-- `LoopOutcome` from `review_loop_engine.py`. -/
inductive LoopOutcome where
  | converged
  | needs_human
  | in_progress
deriving DecidableEq

/-- `LoopDecision` from `review_loop_engine.py`. -/
structure LoopDecision where
  outcome : LoopOutcome
  final_iteration : Option Nat := none
  reason : Option String := none
  locked_fields : Finset String := ∅
deriving DecidableEq

/-- `LoopDecision.is_terminal`. -/
def LoopDecision.is_terminal (d : LoopDecision) : Bool :=
  d.outcome = LoopOutcome.converged ∨ d.outcome = LoopOutcome.needs_human

/-- `LoopDecision.is_locked`. -/
def LoopDecision.is_locked (d : LoopDecision) (field : String) : Bool :=
  field ∈ d.locked_fields

/-- `LoopProtocolIteration` from `review_loop_engine.py`. -/
structure LoopProtocolIteration where
  iteration : Nat
  creator_done : Bool
  candidate : Candidate
  review : ReviewIteration
deriving DecidableEq

/-- `LoopProtocolState` from `review_loop_engine.py` (the `iterations` tuple
becomes a list). -/
structure LoopProtocolState where
  asset_id : String
  max_iterations : Nat
  iterations : List LoopProtocolIteration := []
  decision : Option LoopDecision := none
deriving DecidableEq

/-- The `json_data` of a `ProtocolWrite`: the engine serializes either one
`LoopProtocolIteration` (`to_json_dict`) or one `LoopProtocolState`; both
renderings are injective, so the payload is the data itself. -/
inductive ProtocolPayload where
  | iterationData (it : LoopProtocolIteration)
  | stateData (st : LoopProtocolState)
deriving DecidableEq

/-- `ProtocolWrite` from `review_loop_engine.py`; `path` is the
workspace-root-relative path string. -/
structure ProtocolWrite where
  path : String
  json_data : ProtocolPayload
deriving DecidableEq

/-- `CreatorInput` from `review_loop_engine.py`. -/
structure CreatorInput where
  asset_id : String
  iteration : Nat
  previous_candidate : Option Candidate
  previous_review : Option ReviewIteration
deriving DecidableEq

/-- `CreatorOutput` from `review_loop_engine.py`. -/
structure CreatorOutput where
  candidate : Candidate
  done : Bool
deriving DecidableEq

/-- `ReviewerInput` from `review_loop_engine.py`. -/
structure ReviewerInput where
  asset_id : String
  iteration : Nat
  candidate : Candidate
deriving DecidableEq

/-- A creator capability.  `σ` is the closure state of the callable (the
orchestrator's `_SeededCreator` mutates a `_used` flag); a call may raise. -/
abbrev CreatorFn (σ : Type) := σ → CreatorInput → Except String (CreatorOutput × σ)

/-- A reviewer capability; a call may raise. -/
abbrev ReviewerFn := ReviewerInput → Except String ReviewIteration

/-- Lift a stateless creator callable to the state-passing form. -/
def liftCreator (f : CreatorInput → Except String CreatorOutput) : CreatorFn Unit :=
  fun u inp => (f inp).map (fun o => (o, u))

/-! ## Workspace layout paths (`workspace_store.py`) -/

/-- A character allowed by `_PATH_SEGMENT_RE = [^a-zA-Z0-9._-]+` (i.e. NOT
matched by the substitution pattern). -/
def isSafeChar (c : Char) : Bool :=
  c.isAlpha ∨ c.isDigit ∨ c = '.' ∨ c = '_' ∨ c = '-'

/-- One `re.sub` step: each maximal run of unsafe characters becomes a single
underscore.  The flag records whether the previous character was inside an
unsafe run. -/
def collapseGo : List Char → Bool → List Char
  | [], _ => []
  | c :: rest, inRun =>
    if isSafeChar c then c :: collapseGo rest false
    else if inRun then collapseGo rest true
    else '_' :: collapseGo rest true

/-- A character stripped from the ends by `.strip("._-")`. -/
def isStripChar (c : Char) : Bool :=
  c = '.' ∨ c = '_' ∨ c = '-'

/-- `str.strip("._-")` on a character list. -/
def stripSeg (cs : List Char) : List Char :=
  (((cs.dropWhile isStripChar).reverse).dropWhile isStripChar).reverse

/-- Membership of a character in a string, written on the character list so
that it evaluates inside the kernel (Python `c in value`). -/
def strHasChar (value : String) (c : Char) : Bool :=
  value.data.any (· = c)

/-- Whether a string ends in a newline, written on the character list so that
it evaluates inside the kernel (Python `text.endswith("\\n")`). -/
def endsWithNewline (text : String) : Bool :=
  match text.data.getLast? with
  | some c => c = '\n'
  | none => false

/-- `_safe_path_segment` from `workspace_store.py`. -/
def safePathSegment (value : String) : Except String String :=
  if strHasChar value '/' ∨ strHasChar value '\\' then
    .error "path segment must not contain path separators"
  else
    let cleaned := stripSeg (collapseGo value.data false)
    if cleaned.isEmpty then .error "path segment must not be empty after sanitization"
    else .ok (String.mk cleaned)

/-- `_format_to_extension` from `workspace_store.py`. -/
def formatToExtension : TextFormat → String
  | .markdown => "md"
  | .html => "html"
  | .plain => "txt"

/-- Python `f"{n:02d}"` for the nonnegative iteration numbers used here. -/
def pad2 (n : Nat) : String :=
  if n < 10 then "0" ++ toString n else toString n

/-- `EpisodeWorkspaceLayout.protocol_iteration_json_path`, root-relative. -/
def protocol_iteration_json_path (asset_id : String) (iteration : Nat) : Except String String := do
  let seg ← safePathSegment asset_id
  .ok ("copy/protocol/" ++ seg ++ "/iteration_" ++ pad2 iteration ++ ".json")

/-- `EpisodeWorkspaceLayout.protocol_state_json_path`, root-relative. -/
def protocol_state_json_path (asset_id : String) : Except String String := do
  let seg ← safePathSegment asset_id
  .ok ("copy/protocol/" ++ seg ++ "/state.json")

/-- `EpisodeWorkspaceLayout.selected_text_path`, root-relative. -/
def selected_text_path (asset_id : String) (fmt : TextFormat) : Except String String := do
  let seg ← safePathSegment asset_id
  .ok ("copy/selected/" ++ seg ++ "." ++ formatToExtension fmt)

/-- `EpisodeWorkspaceLayout.candidate_json_path`, root-relative. -/
def candidate_json_path (asset_id : String) (candidate_id : String) : Except String String := do
  let seg ← safePathSegment asset_id
  .ok ("copy/candidates/" ++ seg ++ "/candidate_" ++ candidate_id ++ ".json")

/-- `EpisodeWorkspaceLayout.candidate_text_path`, root-relative. -/
def candidate_text_path (asset_id : String) (candidate_id : String) (fmt : TextFormat) :
    Except String String := do
  let seg ← safePathSegment asset_id
  .ok ("copy/candidates/" ++ seg ++ "/candidate_" ++ candidate_id ++ "." ++ formatToExtension fmt)

/-- `EpisodeWorkspaceLayout.review_iteration_json_path`, root-relative. -/
def review_iteration_json_path (asset_id : String) (iteration : Nat)
    (reviewer : Option String) : Except String String := do
  let seg ← safePathSegment asset_id
  let suffix ← match reviewer with
    | none => pure ""
    | some r => do
      let rseg ← safePathSegment r
      pure ("." ++ rseg)
  .ok ("copy/reviews/" ++ seg ++ "/iteration_" ++ pad2 iteration ++ suffix ++ ".json")

/-! ## The loop engine (`review_loop_engine.py`) -/

/-- `_normalize_review_iteration`: repair the reviewer's iteration number. -/
def normalize_review_iteration (review : ReviewIteration) (iteration : Nat) : ReviewIteration :=
  if review.iteration = iteration then review
  else { review with iteration := iteration }

/-- `_terminal_decision`. -/
def terminal_decision (outcome : LoopOutcome) (iteration : Nat) (reason : String) : LoopDecision :=
  { outcome := outcome
    final_iteration := some iteration
    reason := some reason
    locked_fields := {"outcome", "final_iteration", "reason"} }

/-- `_decide_outcome`: the decision transition evaluated after each iteration. -/
def decide_outcome (review : ReviewIteration) (creator_done : Bool)
    (iteration max_iterations : Nat) : Option LoopDecision :=
  if review.verdict = ReviewVerdict.ok ∧ creator_done then
    some (terminal_decision .converged iteration "reviewer_ok_and_creator_done")
  else if iteration ≥ max_iterations then
    some (terminal_decision .needs_human iteration "iteration_limit")
  else none

/-- `_merge_decision`: field-by-field lock precedence, locked sets unioned. -/
def merge_decision (existing proposed : Option LoopDecision) : Option LoopDecision :=
  match proposed with
  | none => existing
  | some p =>
    match existing with
    | none => some p
    | some e =>
      some
        { outcome := if "outcome" ∈ e.locked_fields then e.outcome else p.outcome
          final_iteration :=
            if "final_iteration" ∈ e.locked_fields then e.final_iteration else p.final_iteration
          reason := if "reason" ∈ e.locked_fields then e.reason else p.reason
          locked_fields := e.locked_fields ∪ p.locked_fields }

/-- The short-circuit test of `run_review_loop_engine`: the decision exists,
is terminal, and has `"outcome"` locked. -/
def decisionFrozen : Option LoopDecision → Bool
  | none => false
  | some d => d.is_terminal ∧ d.is_locked "outcome"

/-- The `for iteration in range(iteration, max_iterations + 1)` loop body of
`run_review_loop_engine`, in fuel-passing style; at the top call
`fuel = max_iterations + 1 - iteration`, the number of range elements left.
Returns the newly recorded iterations, their writes, and the decision variable
after the loop. -/
def loopGo {σ : Type} (asset_id : String) (max_iterations : Nat)
    (creator : CreatorFn σ) (reviewer : ReviewerFn) :
    σ → Option Candidate → Option ReviewIteration → Option LoopDecision → Nat → Nat →
    Except String (List LoopProtocolIteration × List ProtocolWrite × Option LoopDecision)
  | _, _, _, decision, _, 0 => .ok ([], [], decision)
  | cs, prev_candidate, prev_review, _, iteration, fuel + 1 =>
    match creator cs ⟨asset_id, iteration, prev_candidate, prev_review⟩ with
    | .error e => .error e
    | .ok (creator_out, cs') =>
      if creator_out.candidate.asset_id ≠ asset_id then
        .error "creator output candidate.asset_id must match asset_id"
      else
        match reviewer ⟨asset_id, iteration, creator_out.candidate⟩ with
        | .error e => .error e
        | .ok review_raw =>
          let review_out := normalize_review_iteration review_raw iteration
          let protocol_iteration : LoopProtocolIteration :=
            ⟨iteration, creator_out.done, creator_out.candidate, review_out⟩
          match protocol_iteration_json_path asset_id iteration with
          | .error e => .error e
          | .ok p =>
            let w : ProtocolWrite := ⟨p, .iterationData protocol_iteration⟩
            match decide_outcome review_out creator_out.done iteration max_iterations with
            | some d => .ok ([protocol_iteration], [w], some d)
            | none =>
              match loopGo asset_id max_iterations creator reviewer cs'
                  (some creator_out.candidate) (some review_out) none (iteration + 1) fuel with
              | .error e => .error e
              | .ok (its, ws, dec) => .ok (protocol_iteration :: its, w :: ws, dec)

/-- `run_review_loop_engine`: the engine's public `advance` operation. -/
def run_review_loop_engine {σ : Type} (asset_id : String) (max_iterations : Nat)
    (creator : CreatorFn σ) (c0 : σ) (reviewer : ReviewerFn)
    (existing : Option LoopProtocolState) :
    Except String (LoopProtocolState × List ProtocolWrite) :=
  if max_iterations < 1 then .error "max_iterations must be >= 1"
  else
    let state := existing.getD { asset_id := asset_id, max_iterations := max_iterations }
    if state.asset_id ≠ asset_id then .error "existing.asset_id must match asset_id"
    else if state.max_iterations ≠ max_iterations then
      .error "existing.max_iterations must match max_iterations"
    else if decisionFrozen state.decision then .ok (state, [])
    else
      let prev_candidate := (state.iterations.getLast?).map (·.candidate)
      let prev_review := (state.iterations.getLast?).map (·.review)
      let start :=
        match state.iterations.getLast? with
        | some it => it.iteration + 1
        | none => 1
      match loopGo asset_id max_iterations creator reviewer c0 prev_candidate prev_review
          state.decision start (max_iterations + 1 - start) with
      | .error e => .error e
      | .ok (its, ws, dec) =>
        let state2 : LoopProtocolState :=
          { asset_id := asset_id
            max_iterations := max_iterations
            iterations := state.iterations ++ its
            decision := merge_decision state.decision dec }
        match protocol_state_json_path asset_id with
        | .error e => .error e
        | .ok p => .ok (state2, ws ++ [⟨p, .stateData state2⟩])

/-! ## Orchestrator data model (`domain/models.py`, orchestrator side) -/

/-- The `AssetId` pydantic pattern `^[a-z][a-z0-9_]*$`. -/
def assetIdOk (s : String) : Bool :=
  match s.data with
  | [] => false
  | c :: rest => c.isLower ∧ rest.all (fun d => d.isLower ∨ d.isDigit ∨ d = '_')

/-- `Asset` from `domain/models.py`; `selected_candidate_id` is the string
rendering of the UUID pointer. -/
structure Asset where
  asset_id : String
  kind : Option AssetKind
  candidates : List Candidate
  reviews : List ReviewIteration
  selected_candidate_id : Option String
deriving DecidableEq

/-- Strictly increasing review iteration numbers (the `_validate_relations`
loop with `last_iteration` starting at 0). -/
def reviewsMonotone (reviews : List ReviewIteration) : Bool :=
  (reviews.foldl
    (fun acc r =>
      match acc with
      | none => none
      | some last => if r.iteration > last then some r.iteration else none)
    (some 0)).isSome

/-- The pydantic validation run by the `Asset` constructor
(`_validate_relations` plus the `AssetId` pattern). -/
def validAsset (a : Asset) : Bool :=
  assetIdOk a.asset_id &&
  (match a.kind with
   | none => true
   | some k => k.value = a.asset_id) &&
  a.candidates.all (fun c => c.asset_id = a.asset_id) &&
  decide (a.candidates.map (·.candidate_id)).Nodup &&
  reviewsMonotone a.reviews &&
  (match a.selected_candidate_id with
   | none => true
   | some cid => (a.candidates.map (·.candidate_id)).contains cid)

/-- `Asset(...)` construction: pydantic validates and raises on failure. -/
def mkAsset (asset_id : String) (kind : Option AssetKind) (candidates : List Candidate)
    (reviews : List ReviewIteration) (selected_candidate_id : Option String) :
    Except String Asset :=
  let a : Asset := ⟨asset_id, kind, candidates, reviews, selected_candidate_id⟩
  if validAsset a then .ok a else .error "Asset validation failed"

/-- `EpisodeWorkspace` from `domain/models.py`, restricted to the fields the
orchestrator reads or writes (`chapters`, `tracks`, `created_at` and
`provenance` are carried through `model_copy` untouched). -/
structure EpisodeWorkspace where
  episode_id : String
  root_dir : String
  assets : List Asset
deriving DecidableEq

/-! ## The on-disk workspace as seen through `EpisodeWorkspaceStore` -/

/-- Replace the value at a key in an association list, or append the pair:
overwriting a file at a path. -/
def upsertEntry {α : Type} (l : List (String × α)) (k : String) (v : α) : List (String × α) :=
  match l with
  | [] => [(k, v)]
  | (k', v') :: rest =>
    if k' = k then (k, v) :: rest else (k', v') :: upsertEntry rest k v

/-- Look up the value at a key in an association list: reading a file. -/
def lookupEntry {α : Type} (l : List (String × α)) (k : String) : Option α :=
  match l with
  | [] => none
  | (k', v) :: rest => if k' = k then some v else lookupEntry rest k

/-- The state of the on-disk episode workspace, keyed the way
`EpisodeWorkspaceStore` reads and writes it.  JSON documents are stored as the
parsed values they round-trip to. -/
structure Store where
  /-- `copy/candidates/<dir>/candidate_<id>.json` documents, as
  (directory segment, file name, parsed candidate). -/
  candidateDocs : List (String × String × Candidate)
  /-- Plain-text mirror files written by `write_candidate`
  (`candidate_<id>.<ext>`), keyed by path; write-only. -/
  candidateTexts : List (String × String)
  /-- `copy/reviews/...` documents, keyed by path. -/
  reviewDocs : List (String × ReviewIteration)
  /-- `copy/selected/<asset>.<ext>` files, keyed by path. -/
  selectedTexts : List (String × String)
  /-- `copy/protocol/...` documents written from `ProtocolWrite`s. -/
  protocolDocs : List (String × ProtocolPayload)
  /-- `state.json`, when present and parseable. -/
  stateDoc : Option EpisodeWorkspace
  /-- The `episode_id` in `episode.yaml`, when that file exists and carries a
  non-blank string id. -/
  episodeYamlId : Option String
  /-- `layout.root.name`, the fallback episode id. -/
  rootName : String
deriving DecidableEq

/-- `_normalize_selected_text`: append a trailing newline when missing. -/
def normalize_selected_text (text : String) : String :=
  if endsWithNewline text then text else text ++ "\n"

section StoreOps

-- The deterministic markdown-to-HTML rendering used for mirror files; an
-- external collaborator of the core, hence a parameter.
variable (mdToHtml : String → String)

/-- `EpisodeWorkspaceStore.write_candidate`: the JSON document plus the text
mirror (and an HTML mirror for markdown candidates). -/
def store_write_candidate (store : Store) (candidate : Candidate) : Except String Store := do
  let seg ← safePathSegment candidate.asset_id
  let file := "candidate_" ++ candidate.candidate_id ++ ".json"
  let sameFile : String × String × Candidate → Bool := fun e => e.1 = seg ∧ e.2.1 = file
  let store := { store with
    candidateDocs :=
      match store.candidateDocs.find? sameFile with
      | some _ =>
        store.candidateDocs.map (fun e => if sameFile e then (seg, file, candidate) else e)
      | none => store.candidateDocs ++ [(seg, file, candidate)] }
  let textPath ← candidate_text_path candidate.asset_id candidate.candidate_id candidate.format
  let content :=
    if endsWithNewline candidate.content then candidate.content else candidate.content ++ "\n"
  let store := { store with candidateTexts := upsertEntry store.candidateTexts textPath content }
  if candidate.format = TextFormat.markdown then do
    let htmlPath ← candidate_text_path candidate.asset_id candidate.candidate_id TextFormat.html
    .ok { store with candidateTexts := upsertEntry store.candidateTexts htmlPath (mdToHtml content) }
  else
    .ok store

/-- `EpisodeWorkspaceStore.write_review`. -/
def store_write_review (store : Store) (asset_id : String) (review : ReviewIteration) :
    Except String Store := do
  let p ← review_iteration_json_path asset_id review.iteration review.reviewer
  .ok { store with reviewDocs := upsertEntry store.reviewDocs p review }

/-- `EpisodeWorkspaceStore.write_selected_text`: the normalized text, plus an
HTML mirror for markdown. -/
def store_write_selected_text (store : Store) (asset_id : String) (fmt : TextFormat)
    (content : String) : Except String Store := do
  let p ← selected_text_path asset_id fmt
  let content := if endsWithNewline content then content else content ++ "\n"
  let store := { store with selectedTexts := upsertEntry store.selectedTexts p content }
  if fmt = TextFormat.markdown then do
    let htmlPath ← selected_text_path asset_id TextFormat.html
    .ok { store with selectedTexts := upsertEntry store.selectedTexts htmlPath (mdToHtml content) }
  else
    .ok store

/-- `EpisodeWorkspaceStore.write_state`. -/
def store_write_state (store : Store) (workspace : EpisodeWorkspace) : Store :=
  { store with stateDoc := some workspace }

end StoreOps

/-! ## The orchestrator (`review_loop_orchestrator.py`) -/

/-- `_LOCKED_DECISION_ASSETS`. -/
def lockedDecisionAssets : List String :=
  [AssetKind.slug.value, AssetKind.title_detail.value, AssetKind.title_seo.value,
    AssetKind.subtitle_auphonic.value]

/-- `_locked_selected_text`: the normalized selected text for a locked asset
kind, when the selected file exists. -/
def locked_selected_text (store : Store) (asset_id : String) (fmt : TextFormat) :
    Except String (Option String) :=
  if asset_id ∈ lockedDecisionAssets then do
    let p ← selected_text_path asset_id fmt
    match lookupEntry store.selectedTexts p with
    | none => .ok none
    | some t => .ok (some (normalize_selected_text t))
  else .ok none

/-- The synthetic `ReviewIssue` injected by `_apply_locked_selection_issue`. -/
def lockedSelectionIssue (asset_id : String) (selected_path : String) : ReviewIssue :=
  { severity := .error
    message := "Selected content for " ++ asset_id ++
      " is locked after pick; keep it unchanged (see " ++ selected_path ++ ")."
    code := some "locked_selection"
    field := some "content" }

/-- `_apply_locked_selection_issue`. -/
def apply_locked_selection_issue (review : ReviewIteration) (asset_id : String)
    (selected_path : String) : ReviewIteration :=
  let issues := review.issues ++ [lockedSelectionIssue asset_id selected_path]
  let verdict :=
    if review.verdict = ReviewVerdict.ok then ReviewVerdict.changes_requested else review.verdict
  { review with issues := issues, verdict := verdict }

/-- `_wrap_reviewer_with_locked_decisions`: the policy decorator over the
reviewer capability. -/
def wrap_reviewer_with_locked_decisions (store : Store) (reviewer : ReviewerFn) : ReviewerFn :=
  fun inp => do
    let review ← reviewer inp
    let locked ← locked_selected_text store inp.asset_id inp.candidate.format
    match locked with
    | none => .ok review
    | some lockedText =>
      let candidate_text := normalize_selected_text inp.candidate.content
      if candidate_text = lockedText then .ok review
      else do
        let selected_path ← selected_text_path inp.asset_id inp.candidate.format
        .ok (apply_locked_selection_issue review inp.asset_id selected_path)

/-- `_SeededCreator.__call__` in state-passing form; the state is the mutable
`_used` flag (initially `false`). -/
def seededCreatorCall (seed_candidate : Candidate)
    (creator : CreatorInput → Except String CreatorOutput) : CreatorFn Bool :=
  fun used inp =>
    if used = false ∧ inp.previous_candidate = none then
      (creator { inp with previous_candidate := some seed_candidate }).map (fun o => (o, true))
    else
      (creator inp).map (fun o => (o, used))

/-- Strict lexicographic comparison of character lists, by code point: the
order Python uses on `str`.  Written structurally so it evaluates inside the
kernel. -/
def charListLt : List Char → List Char → Bool
  | [], [] => false
  | [], _ :: _ => true
  | _ :: _, [] => false
  | a :: as, b :: bs => if a < b then true else if b < a then false else charListLt as bs

/-- Python `a < b` on strings. -/
def strLt (a b : String) : Bool :=
  charListLt a.data b.data

/-- Python `a <= b` on strings (the complement of the strict order). -/
def strLe (a b : String) : Bool :=
  !(strLt b a)

/-- Insertion into a list sorted by `String` keys, used to state the sorted
directory listing `sorted(candidates_dir.glob(...))`. -/
def insertSortedBy {α : Type} (key : α → String) (a : α) : List α → List α
  | [] => [a]
  | b :: rest => if strLe (key a) (key b) then a :: b :: rest else b :: insertSortedBy key a rest

/-- Sort by a `String` key (insertion sort); models the sorted glob. -/
def sortByKey {α : Type} (key : α → String) : List α → List α
  | [] => []
  | a :: rest => insertSortedBy key a (sortByKey key rest)

/-- `_load_seed_candidates`: the parsed `candidate_*.json` files of
`copy/candidates/<asset_id>/` in sorted file-name order, each checked to carry
the asset's id.  Note the source uses the raw `asset_id` as the directory
segment here (not `_safe_path_segment`). -/
def load_seed_candidates (store : Store) (asset_id : String) :
    Except String (List Candidate) :=
  let entries := store.candidateDocs.filter (fun e => e.1 = asset_id)
  let entries := sortByKey (fun e => e.2.1) entries
  let candidates := entries.map (fun e => e.2.2)
  if candidates.all (fun c => c.asset_id = asset_id) then .ok candidates
  else .error "candidate asset_id mismatch"

/-- The `(created_at, str(candidate_id))` lexicographic ordering of
`_select_seed_candidate`'s `max` key. -/
def seedKeyLt (a b : Candidate) : Bool :=
  a.created_at < b.created_at ∨
    (a.created_at = b.created_at ∧ strLt a.candidate_id b.candidate_id)

/-- `_select_seed_candidate`: Python `max(candidates, key=...)`, which keeps
the first element on equal keys. -/
def select_seed_candidate (candidates : List Candidate) : Option Candidate :=
  match candidates with
  | [] => none
  | c :: rest => some (rest.foldl (fun best cand => if seedKeyLt best cand then cand else best) c)

/-- `_upsert_asset`'s loop, with the `replaced` flag explicit. -/
def upsertGo (updated : Asset) : List Asset → Bool → List Asset
  | [], replaced => if replaced then [] else [updated]
  | a :: rest, replaced =>
    if a.asset_id = updated.asset_id then updated :: upsertGo updated rest true
    else a :: upsertGo updated rest replaced

/-- `_upsert_asset`. -/
def upsert_asset (assets : List Asset) (updated : Asset) : List Asset :=
  upsertGo updated assets false

/-- `_episode_id_from_yaml` followed by the fallback to the root name. -/
def episode_id_from_yaml (store : Store) : String :=
  match store.episodeYamlId with
  | some episode_id => episode_id
  | none => store.rootName

/-- `_load_workspace`: the parsed `state.json` or a fresh workspace. -/
def load_workspace (store : Store) : EpisodeWorkspace :=
  match store.stateDoc with
  | some ws => ws
  | none => { episode_id := episode_id_from_yaml store, root_dir := ".", assets := [] }

/-- `_write_workspace_state`: rebuild this asset's aggregate entry from the
loop state and upsert it into `state.json`. -/
def write_workspace_state (store : Store) (asset_id : String)
    (protocol_state : LoopProtocolState) (selected_candidate_id : Option String) :
    Except String Store := do
  let workspace := load_workspace store
  let kind := assetKindOfString asset_id
  let asset ← mkAsset asset_id kind (protocol_state.iterations.map (·.candidate))
    (protocol_state.iterations.map (·.review)) selected_candidate_id
  let assets := upsert_asset workspace.assets asset
  let updated := { workspace with assets := assets }
  .ok (store_write_state store updated)

section Orchestrator

variable (mdToHtml : String → String)

/-- The per-iteration half of `_write_loop_artifacts`: candidate then review,
in iteration order. -/
def write_iteration_artifacts (store : Store) (asset_id : String) :
    List LoopProtocolIteration → Except String Store
  | [] => .ok store
  | it :: rest => do
    let store ← store_write_candidate mdToHtml store it.candidate
    let store ← store_write_review store asset_id it.review
    write_iteration_artifacts store asset_id rest

/-- `_write_loop_artifacts`: per-iteration artifacts, the selected text on
convergence only, then the aggregate workspace state. -/
def write_loop_artifacts (store : Store) (asset_id : String)
    (protocol_state : LoopProtocolState) : Except String Store := do
  let store ← write_iteration_artifacts mdToHtml store asset_id protocol_state.iterations
  match protocol_state.iterations.getLast? with
  | none => write_workspace_state store asset_id protocol_state none
  | some final_iteration =>
    match protocol_state.decision with
    | some d =>
      if d.outcome = LoopOutcome.converged then do
        let store ← store_write_selected_text mdToHtml store asset_id
          final_iteration.candidate.format final_iteration.candidate.content
        write_workspace_state store asset_id protocol_state
          (some final_iteration.candidate.candidate_id)
      else
        write_workspace_state store asset_id protocol_state none
    | none => write_workspace_state store asset_id protocol_state none

/-- `_write_protocol_files`: persist every `ProtocolWrite`. -/
def write_protocol_files (store : Store) (writes : List ProtocolWrite) : Store :=
  writes.foldl (fun s w => { s with protocolDocs := upsertEntry s.protocolDocs w.path w.json_data }) store

/-- `run_review_loop_orchestrator`: seed resolution, reviewer wrapping, the
engine call (note: always with `existing = None`), and the commit step.
Returns the new loop state together with the updated on-disk workspace. -/
def run_review_loop_orchestrator (store : Store) (asset_id : String) (max_iterations : Nat)
    (creator : CreatorInput → Except String CreatorOutput) (reviewer : ReviewerFn)
    (seed_candidate : Option Candidate) :
    Except String (LoopProtocolState × Store) := do
  let reviewer_runner := wrap_reviewer_with_locked_decisions store reviewer
  let seed ← match seed_candidate with
    | some c => pure (some c)
    | none => do
      let loaded ← load_seed_candidates store asset_id
      pure (select_seed_candidate loaded)
  let creator_runner : CreatorFn Bool :=
    match seed with
    | none => fun b inp => (creator inp).map (fun o => (o, b))
    | some c => seededCreatorCall c creator
  match run_review_loop_engine asset_id max_iterations creator_runner false reviewer_runner none with
  | .error e => .error e
  | .ok (protocol_state, protocol_writes) => do
    let store := write_protocol_files store protocol_writes
    let store ← write_loop_artifacts mdToHtml store asset_id protocol_state
    .ok (protocol_state, store)

end Orchestrator

/-! ## Engine lemmas -/

/-- The repaired review always carries the loop's iteration number. -/
theorem normalize_review_iteration_iteration (r : ReviewIteration) (i : Nat) :
    (normalize_review_iteration r i).iteration = i := by
  unfold normalize_review_iteration
  split
  · omega
  · rfl

/-- At the iteration cap the transition table always decides. -/
theorem decide_outcome_ne_none_of_ge (r : ReviewIteration) (d : Bool) {i mx : Nat}
    (h : mx ≤ i) : decide_outcome r d i mx ≠ none := by
  unfold decide_outcome
  by_cases hconv : r.verdict = ReviewVerdict.ok ∧ d = true
  · rw [if_pos hconv]; simp
  · rw [if_neg hconv, if_pos h]; simp

/-- A converging iteration decides `converged` at its own number. -/
theorem decide_outcome_of_ok_done (r : ReviewIteration) {i mx : Nat}
    (hok : r.verdict = ReviewVerdict.ok) :
    decide_outcome r true i mx =
      some (terminal_decision .converged i "reviewer_ok_and_creator_done") := by
  unfold decide_outcome
  rw [if_pos ⟨hok, rfl⟩]

/-- A non-converging iteration below the cap decides nothing; at the cap it
decides `needs_human` with reason `"iteration_limit"`. -/
theorem decide_outcome_of_not_conv (r : ReviewIteration) (d : Bool) (i mx : Nat)
    (h : ¬(r.verdict = ReviewVerdict.ok ∧ d = true)) :
    decide_outcome r d i mx =
      if mx ≤ i then some (terminal_decision .needs_human i "iteration_limit") else none := by
  unfold decide_outcome
  rw [if_neg h]

/-- Merging into no existing decision keeps the proposed decision. -/
theorem merge_decision_none_left (proposed : Option LoopDecision) :
    merge_decision none proposed = proposed := by
  unfold merge_decision
  cases proposed <;> rfl

/-- The structural invariant of one run of the engine's iteration loop:
iteration numbers are consecutive from the resume point, only the last
recorded iteration decides, and the loop fills its budget or stops on a
decision. -/
theorem loopGo_spec {σ : Type} (asset_id : String) (mx : Nat)
    (creator : CreatorFn σ) (reviewer : ReviewerFn) :
    ∀ (fuel i : Nat) (cs : σ) (prevC : Option Candidate) (prevR : Option ReviewIteration)
      (dec0 : Option LoopDecision) (its : List LoopProtocolIteration)
      (ws : List ProtocolWrite) (dec : Option LoopDecision),
      loopGo asset_id mx creator reviewer cs prevC prevR dec0 i fuel = .ok (its, ws, dec) →
      i + fuel = mx + 1 →
      (its.map (·.iteration) = List.range' i its.length) ∧
      (its = [] → dec = dec0 ∧ fuel = 0) ∧
      (∀ lastIt, its.getLast? = some lastIt →
        dec = decide_outcome lastIt.review lastIt.creator_done lastIt.iteration mx ∧ dec ≠ none) ∧
      (∀ it ∈ its, decide_outcome it.review it.creator_done it.iteration mx ≠ none →
        its.getLast? = some it) ∧
      its.length ≤ fuel ∧
      (∀ it ∈ its, it.review.iteration = it.iteration) := by
  intro fuel
  induction fuel with
  | zero =>
    intro i cs prevC prevR dec0 its ws dec h hfuel
    simp only [loopGo, Except.ok.injEq, Prod.mk.injEq] at h
    obtain ⟨h1, _, h3⟩ := h
    subst h1; subst h3
    simp
  | succ fuel ih =>
    intro i cs prevC prevR dec0 its ws dec h hfuel
    rw [loopGo] at h
    cases hc : creator cs ⟨asset_id, i, prevC, prevR⟩ with
    | error e => rw [hc] at h; exact absurd h (by simp)
    | ok out =>
      obtain ⟨creator_out, cs'⟩ := out
      rw [hc] at h
      simp only at h
      by_cases hid : creator_out.candidate.asset_id = asset_id
      · rw [if_neg (by simpa using hid)] at h
        cases hr : reviewer ⟨asset_id, i, creator_out.candidate⟩ with
        | error e => rw [hr] at h; exact absurd h (by simp)
        | ok review_raw =>
          rw [hr] at h
          simp only at h
          cases hp : protocol_iteration_json_path asset_id i with
          | error e => rw [hp] at h; exact absurd h (by simp)
          | ok p =>
            rw [hp] at h
            simp only at h
            set review_out := normalize_review_iteration review_raw i with hro
            set pit : LoopProtocolIteration :=
              ⟨i, creator_out.done, creator_out.candidate, review_out⟩ with hpit
            have hpit_iter : pit.iteration = i := rfl
            have hpit_rev : pit.review.iteration = pit.iteration := by
              simpa [hpit] using normalize_review_iteration_iteration review_raw i
            cases hd : decide_outcome review_out creator_out.done i mx with
            | some d =>
              rw [hd] at h
              simp only [Except.ok.injEq, Prod.mk.injEq] at h
              obtain ⟨h1, _, h3⟩ := h
              subst h1; subst h3
              have hdec : decide_outcome pit.review pit.creator_done pit.iteration mx = some d := hd
              refine ⟨by simp, by simp, ?_, ?_, by simp, ?_⟩
              · intro lastIt hlast
                simp only [List.getLast?_singleton, Option.some.injEq] at hlast
                subst hlast
                simp [hdec]
              · intro it hmem _
                simp only [List.mem_singleton] at hmem
                subst hmem
                simp
              · intro it hmem
                simp only [List.mem_singleton] at hmem
                subst hmem
                exact hpit_rev
            | none =>
              rw [hd] at h
              cases hrec : loopGo asset_id mx creator reviewer cs'
                  (some creator_out.candidate) (some review_out) none (i + 1) fuel with
              | error e => rw [hrec] at h; exact absurd h (by simp)
              | ok triple =>
                obtain ⟨its', ws', dec'⟩ := triple
                rw [hrec] at h
                simp only [Except.ok.injEq, Prod.mk.injEq] at h
                obtain ⟨h1, _, h3⟩ := h
                subst h1; subst h3
                have hfuel' : (i + 1) + fuel = mx + 1 := by omega
                obtain ⟨ih1, ih2, ih3, ih4, ih5, ih6⟩ :=
                  ih (i + 1) cs' (some creator_out.candidate) (some review_out) none
                    its' ws' dec' hrec hfuel'
                have hne : its' ≠ [] := by
                  intro hnil
                  obtain ⟨hdec', hf0⟩ := ih2 hnil
                  exact decide_outcome_ne_none_of_ge review_out creator_out.done (by omega) hd
                obtain ⟨b, rest, hbr⟩ : ∃ b rest, its' = b :: rest := by
                  cases its' with
                  | nil => exact absurd rfl hne
                  | cons b rest => exact ⟨b, rest, rfl⟩
                have hlast_cons : (pit :: its').getLast? = its'.getLast? := by
                  rw [hbr]; exact List.getLast?_cons_cons
                refine ⟨?_, by simp, ?_, ?_, by simpa using Nat.succ_le_succ ih5, ?_⟩
                · simp only [List.map_cons, List.length_cons, List.range'_succ, hpit_iter]
                  rw [ih1]
                · intro lastIt hlast
                  rw [hlast_cons] at hlast
                  exact ih3 lastIt hlast
                · intro it hmem hdit
                  rcases List.mem_cons.mp hmem with hmem | hmem
                  · subst hmem
                    exact absurd hd (by simpa [hpit] using hdit)
                  · rw [hlast_cons]
                    exact ih4 it hmem hdit
                · intro it hmem
                  rcases List.mem_cons.mp hmem with hmem | hmem
                  · subst hmem; exact hpit_rev
                  · exact ih6 it hmem
      · rw [if_pos (by simpa using hid)] at h
        exact absurd h (by simp)

/-- Destructuring a successful fresh run (`existing = None`) of the engine:
the budget is positive and the recorded iterations, final decision and
identity fields come from one `loopGo` run starting at iteration 1. -/
theorem engine_none_ok {σ : Type} (creator : CreatorFn σ) (c0 : σ) (reviewer : ReviewerFn)
    {a : String} {mx : Nat} {st : LoopProtocolState} {ws : List ProtocolWrite}
    (h : run_review_loop_engine a mx creator c0 reviewer none = .ok (st, ws)) :
    1 ≤ mx ∧ st.asset_id = a ∧ st.max_iterations = mx ∧
    ∃ ws0 dec, loopGo a mx creator reviewer c0 none none none 1 mx = .ok (st.iterations, ws0, dec)
      ∧ st.decision = dec := by
  rw [run_review_loop_engine] at h
  by_cases hmx : mx < 1
  · rw [if_pos hmx] at h
    exact absurd h (by simp)
  · rw [if_neg hmx] at h
    simp only [Option.getD, ne_eq, not_true_eq_false, if_false, decisionFrozen,
      List.getLast?_nil, Option.map_none', Nat.add_sub_cancel, Bool.false_eq_true,
      decide_False] at h
    cases hloop : loopGo a mx creator reviewer c0 none none none 1 mx with
    | error e =>
      rw [hloop] at h
      exact absurd h (by simp)
    | ok triple =>
      obtain ⟨its, ws0, dec⟩ := triple
      rw [hloop] at h
      cases hp : protocol_state_json_path a with
      | error e =>
        rw [hp] at h
        exact absurd h (by simp)
      | ok p =>
        rw [hp] at h
        simp only [Except.ok.injEq, Prod.mk.injEq] at h
        obtain ⟨h1, _⟩ := h
        subst h1
        refine ⟨by omega, rfl, rfl, ws0, dec, ?_, ?_⟩
        · simpa using hloop
        · simpa using merge_decision_none_left dec

/-- C1: with a terminal decision whose `"outcome"` field is locked, `advance`
returns `(state, [])` for every pair of agents (so neither agent can influence
the result), and re-running `advance` seeded from the first call's resulting
state reproduces that state exactly. -/
theorem c1_frozen_state_noop {σ σ' : Type} (creator : CreatorFn σ) (c0 : σ)
    (reviewer : ReviewerFn) (creator' : CreatorFn σ') (c0' : σ') (reviewer' : ReviewerFn)
    (state : LoopProtocolState) (a : String) (mx : Nat) (d : LoopDecision)
    (hmx : 1 ≤ mx) (ha : state.asset_id = a) (hm : state.max_iterations = mx)
    (hd : state.decision = some d) (hterm : d.is_terminal = true)
    (hlock : "outcome" ∈ d.locked_fields) :
    run_review_loop_engine a mx creator c0 reviewer (some state) = .ok (state, []) ∧
    (∀ st1 ws1, run_review_loop_engine a mx creator c0 reviewer (some state) = .ok (st1, ws1) →
      run_review_loop_engine a mx creator' c0' reviewer' (some st1) = .ok (st1, [])) := by
  have hfrozen : decisionFrozen state.decision = true := by
    rw [hd]
    simp [decisionFrozen, LoopDecision.is_locked, hlock, hterm]
  have key : ∀ {τ : Type} (cr : CreatorFn τ) (t0 : τ) (rv : ReviewerFn),
      run_review_loop_engine a mx cr t0 rv (some state) = .ok (state, []) := by
    intro τ cr t0 rv
    rw [run_review_loop_engine, if_neg (by omega)]
    simp only [Option.getD]
    rw [if_neg (by simp [ha]), if_neg (by simp [hm]), if_pos hfrozen]
  refine ⟨key creator c0 reviewer, ?_⟩
  intro st1 ws1 h1
  rw [key creator c0 reviewer] at h1
  simp only [Except.ok.injEq, Prod.mk.injEq] at h1
  obtain ⟨h1, _⟩ := h1
  subst h1
  exact key creator' c0' reviewer'

/-- With consecutive numbering from 1, the last recorded iteration's number is
the total count. -/
theorem last_iteration_eq_length (its : List LoopProtocolIteration) (it : LoopProtocolIteration)
    (hmap : its.map (·.iteration) = List.range' 1 its.length)
    (hlast : its.getLast? = some it) : it.iteration = its.length := by
  have h1 : (its.map (·.iteration)).getLast? = some it.iteration := by
    rw [List.getLast?_map, hlast]
    rfl
  rw [hmap, List.getLast?_range'] at h1
  have hne : its.length ≠ 0 := by
    intro h0
    rw [h0] at h1
    simp at h1
  rw [if_neg hne] at h1
  simp only [Option.some.injEq] at h1
  omega

/-- With consecutive numbering from 1, every recorded iteration number is at
most the total count. -/
theorem mem_iteration_le (its : List LoopProtocolIteration)
    (hmap : its.map (·.iteration) = List.range' 1 its.length) :
    ∀ it' ∈ its, it'.iteration ≤ its.length := by
  intro it' hmem
  have hmm : it'.iteration ∈ its.map (·.iteration) := List.mem_map_of_mem _ hmem
  rw [hmap] at hmm
  have := List.mem_range'_1.mp hmm
  omega

/-- C2: a fresh `advance` run that records an iteration with reviewer verdict
`ok` and creator `done = true` (and no earlier satisfying iteration) ends with
decision `converged` at exactly that iteration number, within the budget, and
records nothing beyond it. -/
theorem c2_converged_at_k {σ : Type} (creator : CreatorFn σ) (c0 : σ) (reviewer : ReviewerFn)
    {a : String} {mx : Nat} {st : LoopProtocolState} {ws : List ProtocolWrite}
    (hrun : run_review_loop_engine a mx creator c0 reviewer none = .ok (st, ws))
    (it : LoopProtocolIteration) (hmem : it ∈ st.iterations)
    (hok : it.review.verdict = ReviewVerdict.ok) (hdone : it.creator_done = true)
    (hfirst : ∀ it' ∈ st.iterations, it'.iteration < it.iteration →
      ¬(it'.review.verdict = ReviewVerdict.ok ∧ it'.creator_done = true)) :
    st.decision =
      some (terminal_decision .converged it.iteration "reviewer_ok_and_creator_done") ∧
    it.iteration ≤ mx ∧
    st.iterations.length = it.iteration ∧
    (∀ it' ∈ st.iterations, it'.iteration ≤ it.iteration) := by
  obtain ⟨hmx, _, _, ws0, dec, hloop, hdec⟩ := engine_none_ok creator c0 reviewer hrun
  obtain ⟨s1, s2, s3, s4, s5, s6⟩ :=
    loopGo_spec a mx creator reviewer mx 1 c0 none none none st.iterations ws0 dec hloop
      (by omega)
  have hd_it : decide_outcome it.review it.creator_done it.iteration mx =
      some (terminal_decision .converged it.iteration "reviewer_ok_and_creator_done") := by
    rw [hdone]
    exact decide_outcome_of_ok_done it.review hok
  have hlast := s4 it hmem (by rw [hd_it]; simp)
  obtain ⟨s_dec, _⟩ := s3 it hlast
  have hklen : it.iteration = st.iterations.length := last_iteration_eq_length _ _ s1 hlast
  refine ⟨?_, ?_, hklen.symm, ?_⟩
  · rw [hdec, s_dec, hd_it]
  · omega
  · intro it' hmem'
    have := mem_iteration_le _ s1 it' hmem'
    omega

/-- C3: a fresh `advance` run in which no recorded iteration has the reviewer
verdict `ok` together with creator `done = true` (reviewer `needs_human`
verdicts included, as they are not terminal) ends with decision `needs_human`
at `max_iterations` with reason `"iteration_limit"`, and records exactly
`max_iterations` iterations. -/
theorem c3_iteration_limit {σ : Type} (creator : CreatorFn σ) (c0 : σ) (reviewer : ReviewerFn)
    {a : String} {mx : Nat} {st : LoopProtocolState} {ws : List ProtocolWrite}
    (hrun : run_review_loop_engine a mx creator c0 reviewer none = .ok (st, ws))
    (hnever : ∀ it' ∈ st.iterations,
      ¬(it'.review.verdict = ReviewVerdict.ok ∧ it'.creator_done = true)) :
    st.decision = some (terminal_decision .needs_human mx "iteration_limit") ∧
    st.iterations.length = mx := by
  obtain ⟨hmx, _, _, ws0, dec, hloop, hdec⟩ := engine_none_ok creator c0 reviewer hrun
  obtain ⟨s1, s2, s3, s4, s5, s6⟩ :=
    loopGo_spec a mx creator reviewer mx 1 c0 none none none st.iterations ws0 dec hloop
      (by omega)
  have hne : st.iterations ≠ [] := by
    intro hnil
    have := (s2 hnil).2
    omega
  obtain ⟨lastIt, hlast⟩ : ∃ x, st.iterations.getLast? = some x := by
    cases hgl : st.iterations.getLast? with
    | none =>
      have : st.iterations.getLast?.isSome := List.getLast?_isSome.mpr hne
      rw [hgl] at this
      simp at this
    | some x => exact ⟨x, rfl⟩
  obtain ⟨hdec_eq, hdec_ne⟩ := s3 lastIt hlast
  have hnc : ¬(lastIt.review.verdict = ReviewVerdict.ok ∧ lastIt.creator_done = true) :=
    hnever lastIt (List.mem_of_getLast?_eq_some hlast)
  have hdo := decide_outcome_of_not_conv lastIt.review lastIt.creator_done lastIt.iteration mx hnc
  have hklen : lastIt.iteration = st.iterations.length := last_iteration_eq_length _ _ s1 hlast
  have hge : mx ≤ lastIt.iteration := by
    by_contra hlt
    rw [hdo, if_neg hlt] at hdec_eq
    exact hdec_ne hdec_eq
  have hlen : st.iterations.length = mx := by omega
  refine ⟨?_, hlen⟩
  rw [hdec, hdec_eq, hdo, if_pos hge]
  have : lastIt.iteration = mx := by omega
  rw [this]

/-- C9: `_normalize_review_iteration` replaces only the iteration field (no
error is raised, all other fields are kept), returns a matching review
unchanged, and consequently every iteration recorded by a fresh engine run
carries the loop's iteration number on its review. -/
theorem c9_review_iteration_repair (r : ReviewIteration) (i : Nat) :
    ((normalize_review_iteration r i).iteration = i ∧
     (normalize_review_iteration r i).verdict = r.verdict ∧
     (normalize_review_iteration r i).issues = r.issues ∧
     (normalize_review_iteration r i).reviewer = r.reviewer ∧
     (normalize_review_iteration r i).created_at = r.created_at ∧
     (normalize_review_iteration r i).summary = r.summary ∧
     (normalize_review_iteration r i).provenance = r.provenance) ∧
    (r.iteration = i → normalize_review_iteration r i = r) ∧
    (∀ {σ : Type} (creator : CreatorFn σ) (c0 : σ) (reviewer : ReviewerFn)
      (a : String) (mx : Nat) (st : LoopProtocolState) (ws : List ProtocolWrite),
      run_review_loop_engine a mx creator c0 reviewer none = .ok (st, ws) →
      ∀ it ∈ st.iterations, it.review.iteration = it.iteration) := by
  refine ⟨?_, ?_, ?_⟩
  · unfold normalize_review_iteration
    split
    · refine ⟨by omega, rfl, rfl, rfl, rfl, rfl, rfl⟩
    · exact ⟨rfl, rfl, rfl, rfl, rfl, rfl, rfl⟩
  · intro hi
    unfold normalize_review_iteration
    rw [if_pos hi]
  · intro σ creator c0 reviewer a mx st ws hrun it hmem
    obtain ⟨hmx, _, _, ws0, dec, hloop, _⟩ := engine_none_ok creator c0 reviewer hrun
    obtain ⟨_, _, _, _, _, s6⟩ :=
      loopGo_spec a mx creator reviewer mx 1 c0 none none none st.iterations ws0 dec hloop
        (by omega)
    exact s6 it hmem

/-- C7: a creator candidate with a mismatched asset id, or any raising agent
call, aborts the iteration loop (and hence `advance`) with an error; the
`Except.error` result carries no recorded iteration, no write, and no state. -/
theorem c7_contract_violation_aborts {σ : Type} (creator : CreatorFn σ) (reviewer : ReviewerFn)
    (a : String) (mx : Nat) :
    (∀ (cs : σ) prevC prevR dec0 i fuel e,
      creator cs ⟨a, i, prevC, prevR⟩ = .error e →
      loopGo a mx creator reviewer cs prevC prevR dec0 i (fuel + 1) = .error e) ∧
    (∀ (cs cs2 : σ) prevC prevR dec0 i fuel out,
      creator cs ⟨a, i, prevC, prevR⟩ = .ok (out, cs2) →
      out.candidate.asset_id ≠ a →
      loopGo a mx creator reviewer cs prevC prevR dec0 i (fuel + 1) =
        .error "creator output candidate.asset_id must match asset_id") ∧
    (∀ (cs cs2 : σ) prevC prevR dec0 i fuel out e,
      creator cs ⟨a, i, prevC, prevR⟩ = .ok (out, cs2) →
      out.candidate.asset_id = a →
      reviewer ⟨a, i, out.candidate⟩ = .error e →
      loopGo a mx creator reviewer cs prevC prevR dec0 i (fuel + 1) = .error e) ∧
    (∀ (c0 : σ) out cs2, 1 ≤ mx →
      creator c0 ⟨a, 1, none, none⟩ = .ok (out, cs2) →
      out.candidate.asset_id ≠ a →
      run_review_loop_engine a mx creator c0 reviewer none =
        .error "creator output candidate.asset_id must match asset_id" ∧
      ∀ st ws, run_review_loop_engine a mx creator c0 reviewer none ≠ .ok (st, ws)) := by
  have hbad : ∀ (cs cs2 : σ) prevC prevR dec0 i fuel out,
      creator cs ⟨a, i, prevC, prevR⟩ = .ok (out, cs2) →
      out.candidate.asset_id ≠ a →
      loopGo a mx creator reviewer cs prevC prevR dec0 i (fuel + 1) =
        .error "creator output candidate.asset_id must match asset_id" := by
    intro cs cs2 prevC prevR dec0 i fuel out hc hne
    rw [loopGo, hc]
    simp only
    rw [if_pos (by simpa using hne)]
  refine ⟨?_, hbad, ?_, ?_⟩
  · intro cs prevC prevR dec0 i fuel e hc
    rw [loopGo, hc]
  · intro cs cs2 prevC prevR dec0 i fuel out e hc hid hr
    rw [loopGo, hc]
    simp only
    rw [if_neg (by simpa using hid), hr]
  · intro c0 out cs2 hmx hc hne
    have key : run_review_loop_engine a mx creator c0 reviewer none =
        .error "creator output candidate.asset_id must match asset_id" := by
      obtain ⟨m, rfl⟩ : ∃ m, mx = m + 1 := ⟨mx - 1, by omega⟩
      rw [run_review_loop_engine, if_neg (by omega)]
      simp only [Option.getD, ne_eq, not_true_eq_false, if_false, decisionFrozen,
        List.getLast?_nil, Option.map_none', Nat.add_sub_cancel, Bool.false_eq_true,
        decide_False]
      rw [hbad c0 cs2 none none none 1 m out hc hne]
    exact ⟨key, by intro st ws h; rw [key] at h; exact absurd h (by simp)⟩

/-! ## Concrete example data for the engine claims -/

/-- An issue-free review with the given iteration number and verdict. -/
def mkReview (i : Nat) (v : ReviewVerdict) : ReviewIteration :=
  ⟨i, v, [], none, 0, none, []⟩

/-- A plain-text candidate for the `description` asset. -/
def mkCand (cid : String) (content : String) : Candidate :=
  ⟨cid, "description", .plain, content, 0, []⟩

def c1exDecision : LoopDecision :=
  ⟨.needs_human, some 1, some "iteration_limit", {"outcome"}⟩

def c1exState : LoopProtocolState :=
  { asset_id := "description", max_iterations := 3, decision := some c1exDecision }

def exFailingCreator : CreatorFn Unit := liftCreator fun _ => .error "creator must not run"

def exFailingReviewer : ReviewerFn := fun _ => .error "reviewer must not run"

theorem c1_witness :
    run_review_loop_engine "description" 3 exFailingCreator () exFailingReviewer
      (some c1exState) = .ok (c1exState, []) :=
  (c1_frozen_state_noop exFailingCreator () exFailingReviewer exFailingCreator ()
    exFailingReviewer c1exState "description" 3 c1exDecision (by omega) rfl rfl rfl
    (by decide) (by decide)).1

def c2exCreator : CreatorFn Unit :=
  liftCreator fun inp => .ok ⟨mkCand ("c" ++ toString inp.iteration) "d", decide (inp.iteration = 2)⟩

def c2exReviewer : ReviewerFn := fun inp =>
  .ok (mkReview inp.iteration (if inp.iteration = 1 then .changes_requested else .ok))

def c2exIt1 : LoopProtocolIteration := ⟨1, false, mkCand "c1" "d", mkReview 1 .changes_requested⟩

def c2exIt2 : LoopProtocolIteration := ⟨2, true, mkCand "c2" "d", mkReview 2 .ok⟩

def c2exState : LoopProtocolState :=
  { asset_id := "description", max_iterations := 5, iterations := [c2exIt1, c2exIt2],
    decision := some (terminal_decision .converged 2 "reviewer_ok_and_creator_done") }

def c2exWrites : List ProtocolWrite :=
  [⟨"copy/protocol/description/iteration_01.json", .iterationData c2exIt1⟩,
   ⟨"copy/protocol/description/iteration_02.json", .iterationData c2exIt2⟩,
   ⟨"copy/protocol/description/state.json", .stateData c2exState⟩]

theorem c2_witness :
    c2exState.decision =
      some (terminal_decision .converged 2 "reviewer_ok_and_creator_done") ∧
    2 ≤ 5 ∧ c2exState.iterations.length = 2 := by
  have hrun : run_review_loop_engine "description" 5 c2exCreator () c2exReviewer none =
      .ok (c2exState, c2exWrites) := by rfl
  have h := c2_converged_at_k c2exCreator () c2exReviewer hrun
    c2exIt2 (by decide) (by decide) (by decide) (by decide)
  exact ⟨h.1, h.2.1, h.2.2.1⟩

def c3exCreator : CreatorFn Unit :=
  liftCreator fun inp => .ok ⟨mkCand ("c" ++ toString inp.iteration) "d", true⟩

def c3exReviewer : ReviewerFn := fun inp => .ok (mkReview inp.iteration .needs_human)

def c3exState : LoopProtocolState :=
  { asset_id := "description", max_iterations := 2,
    iterations :=
      [⟨1, true, mkCand "c1" "d", mkReview 1 .needs_human⟩,
       ⟨2, true, mkCand "c2" "d", mkReview 2 .needs_human⟩],
    decision := some (terminal_decision .needs_human 2 "iteration_limit") }

def c3exWrites : List ProtocolWrite :=
  [⟨"copy/protocol/description/iteration_01.json",
      .iterationData ⟨1, true, mkCand "c1" "d", mkReview 1 .needs_human⟩⟩,
   ⟨"copy/protocol/description/iteration_02.json",
      .iterationData ⟨2, true, mkCand "c2" "d", mkReview 2 .needs_human⟩⟩,
   ⟨"copy/protocol/description/state.json", .stateData c3exState⟩]

theorem c3_witness :
    c3exState.decision = some (terminal_decision .needs_human 2 "iteration_limit") ∧
    c3exState.iterations.length = 2 := by
  have hrun : run_review_loop_engine "description" 2 c3exCreator () c3exReviewer none =
      .ok (c3exState, c3exWrites) := by rfl
  exact c3_iteration_limit c3exCreator () c3exReviewer hrun (by decide)

def c7exCreatorOutput : CreatorOutput := ⟨⟨"x1", "other_asset", .plain, "d", 0, []⟩, false⟩

def c7exCreator : CreatorFn Unit := liftCreator fun _ => .ok c7exCreatorOutput

def c7exReviewer : ReviewerFn := fun inp => .ok (mkReview inp.iteration .ok)

theorem c7_witness :
    run_review_loop_engine "description" 3 c7exCreator () c7exReviewer none =
      .error "creator output candidate.asset_id must match asset_id" :=
  ((c7_contract_violation_aborts c7exCreator c7exReviewer "description" 3).2.2.2
    () c7exCreatorOutput () (by omega) rfl (by decide)).1

def c9exReview : ReviewIteration := ⟨7, .changes_requested, [], some "reviewer_a", 3, none, []⟩

theorem c9_witness :
    (normalize_review_iteration c9exReview 4).iteration = 4 ∧
    (normalize_review_iteration c9exReview 4).verdict = c9exReview.verdict ∧
    (normalize_review_iteration c9exReview 7).iteration = 7 := by
  have h4 := c9_review_iteration_repair c9exReview 4
  have h7 := (c9_review_iteration_repair c9exReview 7).2.1 rfl
  exact ⟨h4.1.1, h4.1.2.1, by rw [h7]; rfl⟩

/-! ## Orchestrator lemmas -/

/-- Position-wise behavior of the upsert loop: matching entries become the
updated asset, the rest stay. -/
theorem upsertGo_getElem (u : Asset) :
    ∀ (l : List Asset) (b : Bool) (j : Nat) (a : Asset), l[j]? = some a →
      (upsertGo u l b)[j]? = some (if a.asset_id = u.asset_id then u else a) := by
  intro l
  induction l with
  | nil =>
    intro b j a h
    simp at h
  | cons x rest ih =>
    intro b j a h
    rw [upsertGo]
    by_cases hx : x.asset_id = u.asset_id
    · rw [if_pos hx]
      cases j with
      | zero =>
        simp only [List.getElem?_cons_zero, Option.some.injEq] at h
        subst h
        simp [hx]
      | succ j =>
        simp only [List.getElem?_cons_succ] at h ⊢
        exact ih true j a h
    · rw [if_neg hx]
      cases j with
      | zero =>
        simp only [List.getElem?_cons_zero, Option.some.injEq] at h
        subst h
        simp [hx]
      | succ j =>
        simp only [List.getElem?_cons_succ] at h ⊢
        exact ih b j a h

/-- Without a matching entry the upsert loop preserves the list, appending the
updated asset exactly when the `replaced` flag is still false. -/
theorem upsertGo_no_match (u : Asset) :
    ∀ (l : List Asset), (∀ a ∈ l, a.asset_id ≠ u.asset_id) →
      ∀ b, upsertGo u l b = l ++ (if b then [] else [u]) := by
  intro l
  induction l with
  | nil =>
    intro _ b
    cases b <;> simp [upsertGo]
  | cons x rest ih =>
    intro h b
    rw [upsertGo, if_neg (h x (List.mem_cons_self x rest))]
    rw [ih (fun a ha => h a (List.mem_cons_of_mem x ha)) b]
    simp

/-- After a replacement the upsert loop preserves length. -/
theorem upsertGo_true_length (u : Asset) :
    ∀ (l : List Asset), (upsertGo u l true).length = l.length := by
  intro l
  induction l with
  | nil => rfl
  | cons x rest ih =>
    rw [upsertGo]
    by_cases hx : x.asset_id = u.asset_id
    · rw [if_pos hx]
      simp [ih]
    · rw [if_neg hx]
      simp [ih]

/-- With a matching entry present, `_upsert_asset` preserves length. -/
theorem upsertGo_match_length (u : Asset) :
    ∀ (l : List Asset), (∃ a ∈ l, a.asset_id = u.asset_id) →
      (upsertGo u l false).length = l.length := by
  intro l
  induction l with
  | nil =>
    intro h
    simp at h
  | cons x rest ih =>
    intro h
    rw [upsertGo]
    by_cases hx : x.asset_id = u.asset_id
    · rw [if_pos hx]
      simp [upsertGo_true_length]
    · rw [if_neg hx]
      obtain ⟨a, ha, haid⟩ := h
      rcases List.mem_cons.mp ha with rfl | ha
      · exact absurd haid hx
      · simp [ih ⟨a, ha, haid⟩]

/-- The upserted list always resolves the updated asset's id to the updated
asset. -/
theorem find?_upsert_asset (u : Asset) :
    ∀ (l : List Asset),
      (upsert_asset l u).find? (fun a => a.asset_id = u.asset_id) = some u := by
  have go : ∀ (l : List Asset),
      (upsertGo u l false).find? (fun a => a.asset_id = u.asset_id) = some u := by
    intro l
    induction l with
    | nil => simp [upsertGo, List.find?]
    | cons x rest ih =>
      rw [upsertGo]
      by_cases hx : x.asset_id = u.asset_id
      · rw [if_pos hx]
        exact List.find?_cons_of_pos _ (by simp)
      · rw [if_neg hx]
        rw [List.find?_cons_of_neg _ (by simp [hx])]
        exact ih
  intro l
  exact go l

/-- C10: `_upsert_asset` keeps every non-matching entry unchanged at its
original position, replaces matching entries in place (so the length is
unchanged when a match exists), and appends the updated asset when nothing
matches. -/
theorem c10_upsert_asset (assets : List Asset) (u : Asset) :
    (∀ (j : Nat) (a : Asset), assets[j]? = some a →
      (upsert_asset assets u)[j]? = some (if a.asset_id = u.asset_id then u else a)) ∧
    ((∀ a ∈ assets, a.asset_id ≠ u.asset_id) → upsert_asset assets u = assets ++ [u]) ∧
    ((∃ a ∈ assets, a.asset_id = u.asset_id) →
      (upsert_asset assets u).length = assets.length) := by
  refine ⟨?_, ?_, ?_⟩
  · intro j a h
    exact upsertGo_getElem u assets false j a h
  · intro h
    rw [upsert_asset, upsertGo_no_match u assets h false]
    simp
  · intro h
    exact upsertGo_match_length u assets h

def c10exAsset (aid : String) (sel : Option String) : Asset := ⟨aid, none, [], [], sel⟩

theorem c10_witness :
    (upsert_asset [c10exAsset "slug" none, c10exAsset "description" none]
        (c10exAsset "slug" (some "c1")))[0]? =
      some (c10exAsset "slug" (some "c1")) ∧
    upsert_asset [c10exAsset "description" none] (c10exAsset "slug" none) =
      [c10exAsset "description" none] ++ [c10exAsset "slug" none] := by
  have h1 := (c10_upsert_asset [c10exAsset "slug" none, c10exAsset "description" none]
    (c10exAsset "slug" (some "c1"))).1 0 (c10exAsset "slug" none) (by rfl)
  have h2 := (c10_upsert_asset [c10exAsset "description" none] (c10exAsset "slug" none)).2.1
    (by decide)
  refine ⟨?_, h2⟩
  rw [h1]
  rfl

/-- Severity order on verdicts: `ok < changes_requested < needs_human`. -/
def verdictRank : ReviewVerdict → Nat
  | .ok => 0
  | .changes_requested => 1
  | .needs_human => 2

/-- C5: for a locked asset kind whose selected-text file holds `t`, the
wrapped reviewer leaves a matching candidate's review untouched, and for a
mismatching candidate (after trailing-newline normalization) returns the inner
review with one appended `error`-severity `locked_selection` issue and the
verdict raised to at least `changes_requested` without ever downgrading. -/
theorem c5_locked_selection_enforcement (store : Store) (reviewer : ReviewerFn)
    (inp : ReviewerInput) (p t : String) (rv : ReviewIteration)
    (hmem : inp.asset_id ∈ lockedDecisionAssets)
    (hpath : selected_text_path inp.asset_id inp.candidate.format = .ok p)
    (hfile : lookupEntry store.selectedTexts p = some t)
    (hrev : reviewer inp = .ok rv) :
    (normalize_selected_text inp.candidate.content ≠ normalize_selected_text t →
      wrap_reviewer_with_locked_decisions store reviewer inp =
        .ok (apply_locked_selection_issue rv inp.asset_id p) ∧
      (apply_locked_selection_issue rv inp.asset_id p).issues =
        rv.issues ++ [lockedSelectionIssue inp.asset_id p] ∧
      (lockedSelectionIssue inp.asset_id p).severity = .error ∧
      (lockedSelectionIssue inp.asset_id p).code = some "locked_selection" ∧
      (apply_locked_selection_issue rv inp.asset_id p).verdict =
        (if rv.verdict = .ok then .changes_requested else rv.verdict) ∧
      1 ≤ verdictRank (apply_locked_selection_issue rv inp.asset_id p).verdict ∧
      verdictRank rv.verdict ≤
        verdictRank (apply_locked_selection_issue rv inp.asset_id p).verdict ∧
      (apply_locked_selection_issue rv inp.asset_id p).iteration = rv.iteration ∧
      (apply_locked_selection_issue rv inp.asset_id p).reviewer = rv.reviewer ∧
      (apply_locked_selection_issue rv inp.asset_id p).created_at = rv.created_at) ∧
    (normalize_selected_text inp.candidate.content = normalize_selected_text t →
      wrap_reviewer_with_locked_decisions store reviewer inp = .ok rv) := by
  have hlocked : locked_selected_text store inp.asset_id inp.candidate.format =
      .ok (some (normalize_selected_text t)) := by
    rw [locked_selected_text, if_pos hmem, hpath]
    simp only [bind, Except.bind, hfile]
  have hwrap : wrap_reviewer_with_locked_decisions store reviewer inp =
      (if normalize_selected_text inp.candidate.content = normalize_selected_text t then
        Except.ok rv
      else Except.ok (apply_locked_selection_issue rv inp.asset_id p)) := by
    rw [wrap_reviewer_with_locked_decisions]
    simp only [bind, Except.bind, hrev, hlocked, hpath]
  constructor
  · intro hne
    refine ⟨?_, rfl, rfl, rfl, rfl, ?_, ?_, rfl, rfl, rfl⟩
    · rw [hwrap, if_neg hne]
    · cases hv : rv.verdict <;>
        simp [apply_locked_selection_issue, verdictRank, hv]
    · cases hv : rv.verdict <;>
        simp [apply_locked_selection_issue, verdictRank, hv]
  · intro heq
    rw [hwrap, if_pos heq]

def c5exSelected : String := "# Slug\n\nlocked\n"

def c5exStore : Store :=
  { candidateDocs := [], candidateTexts := [], reviewDocs := [],
    selectedTexts := [("copy/selected/slug.md", c5exSelected)], protocolDocs := [],
    stateDoc := none, episodeYamlId := none, rootName := "ep" }

def c5exCandidate (content : String) : Candidate := ⟨"c1", "slug", .markdown, content, 0, []⟩

def c5exReviewer : ReviewerFn := fun inp => .ok (mkReview inp.iteration .ok)

theorem c5_witness :
    wrap_reviewer_with_locked_decisions c5exStore c5exReviewer
        ⟨"slug", 1, c5exCandidate "# Slug\n\nchanged\n"⟩ =
      .ok (apply_locked_selection_issue (mkReview 1 .ok) "slug" "copy/selected/slug.md") ∧
    (apply_locked_selection_issue (mkReview 1 .ok) "slug" "copy/selected/slug.md").verdict =
      .changes_requested ∧
    wrap_reviewer_with_locked_decisions c5exStore c5exReviewer
        ⟨"slug", 1, c5exCandidate "# Slug\n\nlocked\n"⟩ = .ok (mkReview 1 .ok) := by
  have hbad := (c5_locked_selection_enforcement c5exStore c5exReviewer
    ⟨"slug", 1, c5exCandidate "# Slug\n\nchanged\n"⟩ "copy/selected/slug.md" c5exSelected
    (mkReview 1 .ok) (by decide) rfl rfl rfl).1 (by decide)
  have hgood := (c5_locked_selection_enforcement c5exStore c5exReviewer
    ⟨"slug", 1, c5exCandidate "# Slug\n\nlocked\n"⟩ "copy/selected/slug.md" c5exSelected
    (mkReview 1 .ok) (by decide) rfl rfl rfl).2 (by decide)
  refine ⟨hbad.1, ?_, hgood⟩
  have h := hbad.2.2.2.2.1
  simpa using h

/-- The strict string order is irreflexive. -/
theorem charListLt_irrefl : ∀ l : List Char, charListLt l l = false := by
  intro l
  induction l with
  | nil => rfl
  | cons a as ih =>
    rw [charListLt]
    rw [if_neg (lt_irrefl a), if_neg (lt_irrefl a)]
    exact ih

/-- The strict string order is asymmetric. -/
theorem charListLt_asymm : ∀ l1 l2 : List Char,
    charListLt l1 l2 = true → charListLt l2 l1 = false := by
  intro l1
  induction l1 with
  | nil =>
    intro l2 h
    cases l2 with
    | nil => exact absurd h (by simp [charListLt])
    | cons b bs => rfl
  | cons a as ih =>
    intro l2 h
    cases l2 with
    | nil => exact absurd h (by simp [charListLt])
    | cons b bs =>
      rw [charListLt] at h ⊢
      by_cases hab : a < b
      · rw [if_neg (fun hba => absurd hab (not_lt_of_gt hba)), if_pos hab]
      · rw [if_neg hab] at h
        by_cases hba : b < a
        · rw [if_pos hba] at h
          exact absurd h (by simp)
        · rw [if_neg hba] at h
          rw [if_neg hba, if_neg hab]
          exact ih bs h

/-- The seed key order is irreflexive. -/
theorem seedKeyLt_irrefl (a : Candidate) : seedKeyLt a a = false := by
  unfold seedKeyLt strLt
  simp [charListLt_irrefl]

/-- The seed key order is asymmetric. -/
theorem seedKeyLt_asymm {a b : Candidate} (h : seedKeyLt a b = true) :
    seedKeyLt b a = false := by
  unfold seedKeyLt strLt at h ⊢
  simp only [decide_eq_true_eq, Bool.decide_or, Bool.or_eq_true, decide_eq_true_eq,
    Bool.decide_and, Bool.and_eq_true] at h
  rcases h with h | ⟨heq, hlt⟩
  · simp only [Bool.decide_or, Bool.or_eq_false_iff, decide_eq_false_iff_not, not_lt,
      Bool.decide_and, Bool.and_eq_false_iff, decide_eq_false_iff_not]
    constructor
    · omega
    · left
      omega
  · simp only [Bool.decide_or, Bool.or_eq_false_iff, decide_eq_false_iff_not, not_lt,
      Bool.decide_and, Bool.and_eq_false_iff, decide_eq_false_iff_not]
    refine ⟨by omega, ?_⟩
    right
    simpa using charListLt_asymm _ _ hlt

/-- The fold inside `_select_seed_candidate` returns the unique key-maximal
candidate of the accumulator and the remaining list. -/
theorem select_fold_max (m : Candidate) :
    ∀ (l : List Candidate) (acc : Candidate),
      (acc = m ∨ m ∈ l) →
      (acc ≠ m → seedKeyLt acc m = true) →
      (∀ c ∈ l, c ≠ m → seedKeyLt c m = true) →
      l.foldl (fun best cand => if seedKeyLt best cand then cand else best) acc = m := by
  intro l
  induction l with
  | nil =>
    intro acc hin hacc _
    rcases hin with rfl | h
    · rfl
    · simp at h
  | cons c rest ih =>
    intro acc hin hacc hl
    rw [List.foldl_cons]
    by_cases hcm : c = m
    · subst hcm
      by_cases haccm : acc = c
      · subst haccm
        rw [if_neg (by simp [seedKeyLt_irrefl])]
        exact ih acc (Or.inl rfl) hacc (fun c' hc' => hl c' (List.mem_cons_of_mem _ hc'))
      · rw [if_pos (hacc haccm)]
        exact ih c (Or.inl rfl) (fun h => absurd rfl h)
          (fun c' hc' => hl c' (List.mem_cons_of_mem _ hc'))
    · have hcx : seedKeyLt c m = true := hl c (List.mem_cons_self c rest) hcm
      by_cases haccm : acc = m
      · have hstep : seedKeyLt acc c = false := by
          rw [haccm]
          exact seedKeyLt_asymm hcx
        rw [if_neg (by simp [hstep])]
        exact ih acc (Or.inl haccm) hacc (fun c' hc' => hl c' (List.mem_cons_of_mem _ hc'))
      · have hmem : m ∈ rest := by
          rcases hin with hin | hin
          · exact absurd hin haccm
          · rcases List.mem_cons.mp hin with hin | hin
            · exact absurd hin.symm hcm
            · exact hin
        by_cases hstep : seedKeyLt acc c = true
        · rw [if_pos hstep]
          exact ih c (Or.inr hmem) (fun _ => hcx)
            (fun c' hc' => hl c' (List.mem_cons_of_mem _ hc'))
        · rw [if_neg (by simpa using hstep)]
          exact ih acc (Or.inr hmem) hacc (fun c' hc' => hl c' (List.mem_cons_of_mem _ hc'))

/-- The stateless creator that substitutes the seed exactly when the previous
candidate is missing; the observable behavior of a fresh `_SeededCreator`. -/
def seedOnFresh (m : Candidate) (f : CreatorInput → Except String CreatorOutput) :
    CreatorInput → Except String CreatorOutput :=
  fun inp =>
    if inp.previous_candidate = none then f { inp with previous_candidate := some m }
    else f inp

/-- Once a previous candidate exists, the seeded creator and the
seed-substituting stateless creator drive the loop identically, whatever the
`_used` flag holds. -/
theorem loopGo_seeded_some (a : String) (mx : Nat) (m : Candidate)
    (f : CreatorInput → Except String CreatorOutput) (reviewer : ReviewerFn) :
    ∀ (fuel i : Nat) (c : Candidate) (prevR : Option ReviewIteration)
      (dec0 : Option LoopDecision) (u : Bool),
      loopGo a mx (seededCreatorCall m f) reviewer u (some c) prevR dec0 i fuel =
      loopGo a mx (liftCreator (seedOnFresh m f)) reviewer () (some c) prevR dec0 i fuel := by
  intro fuel
  induction fuel with
  | zero => intro i c prevR dec0 u; rfl
  | succ fuel ih =>
    intro i c prevR dec0 u
    rw [loopGo, loopGo]
    simp only [seededCreatorCall, liftCreator, seedOnFresh]
    simp only [Option.some_ne_none, and_false, if_false, reduceCtorEq]
    cases hf : f ⟨a, i, some c, prevR⟩ with
    | error e => rfl
    | ok out =>
      simp only [Except.map_ok, Except.map]
      by_cases hid : out.candidate.asset_id = a
      · rw [if_neg (by simpa using hid), if_neg (by simpa using hid)]
        cases hr : reviewer ⟨a, i, out.candidate⟩ with
        | error e => rfl
        | ok review_raw =>
          simp only
          cases hp : protocol_iteration_json_path a i with
          | error e => rfl
          | ok p =>
            simp only
            cases hd : decide_outcome (normalize_review_iteration review_raw i) out.done i mx with
            | some d => rfl
            | none => rw [ih]
      · rw [if_pos (by simpa using hid), if_pos (by simpa using hid)]

/-- From a missing previous candidate and an unused flag, the seeded creator
drives the loop exactly as the seed-substituting stateless creator does: the
substitution happens on that first call and the wrapper is then used up. -/
theorem loopGo_seeded_none (a : String) (mx : Nat) (m : Candidate)
    (f : CreatorInput → Except String CreatorOutput) (reviewer : ReviewerFn)
    (fuel i : Nat) (prevR : Option ReviewIteration) (dec0 : Option LoopDecision) :
    loopGo a mx (seededCreatorCall m f) reviewer false none prevR dec0 i fuel =
    loopGo a mx (liftCreator (seedOnFresh m f)) reviewer () none prevR dec0 i fuel := by
  cases fuel with
  | zero => rfl
  | succ fuel =>
    rw [loopGo, loopGo]
    simp only [seededCreatorCall, liftCreator, seedOnFresh]
    simp only [and_self, if_true, if_pos rfl]
    cases hf : f ⟨a, i, some m, prevR⟩ with
    | error e => rfl
    | ok out =>
      simp only [Except.map_ok, Except.map]
      by_cases hid : out.candidate.asset_id = a
      · rw [if_neg (by simpa using hid), if_neg (by simpa using hid)]
        cases hr : reviewer ⟨a, i, out.candidate⟩ with
        | error e => rfl
        | ok review_raw =>
          simp only
          cases hp : protocol_iteration_json_path a i with
          | error e => rfl
          | ok p =>
            simp only
            cases hd : decide_outcome (normalize_review_iteration review_raw i) out.done i mx with
            | some d => rfl
            | none => rw [loopGo_seeded_some]
      · rw [if_pos (by simpa using hid), if_pos (by simpa using hid)]

/-- On a fresh engine run the one-shot seeded creator behaves exactly like the
stateless creator that rewrites a null `previous_candidate` to the seed. -/
theorem engine_seeded_eq (a : String) (mx : Nat) (m : Candidate)
    (f : CreatorInput → Except String CreatorOutput) (r : ReviewerFn) :
    run_review_loop_engine a mx (seededCreatorCall m f) false r none =
    run_review_loop_engine a mx (liftCreator (seedOnFresh m f)) () r none := by
  rw [run_review_loop_engine, run_review_loop_engine]
  by_cases hmx : mx < 1
  · rw [if_pos hmx, if_pos hmx]
  · rw [if_neg hmx, if_neg hmx]
    simp only [Option.getD, ne_eq, not_true_eq_false, if_false, decisionFrozen,
      List.getLast?_nil, Option.map_none', Nat.add_sub_cancel, Bool.false_eq_true,
      decide_False]
    rw [loopGo_seeded_none]

/-- C8: among several persisted candidates the unique `(created_at, id)`
maximum is selected as seed; a fresh one-shot seeded creator substitutes the
seed exactly on the first call whose `previous_candidate` is null, is used up
by it, passes every other call through, and on a fresh engine run behaves
exactly like the stateless substitute-on-null creator. -/
theorem c8_seed_resolution (l : List Candidate) (m : Candidate)
    (hlen : 2 ≤ l.length) (hm : m ∈ l)
    (hmax : ∀ c ∈ l, c ≠ m → seedKeyLt c m = true) :
    select_seed_candidate l = some m ∧
    (∀ (f : CreatorInput → Except String CreatorOutput) (inp : CreatorInput),
      inp.previous_candidate = none →
      seededCreatorCall m f false inp =
        (f { inp with previous_candidate := some m }).map (fun o => (o, true))) ∧
    (∀ (f : CreatorInput → Except String CreatorOutput) (inp : CreatorInput),
      seededCreatorCall m f true inp = (f inp).map (fun o => (o, true))) ∧
    (∀ (f : CreatorInput → Except String CreatorOutput) (inp : CreatorInput) (u : Bool),
      inp.previous_candidate ≠ none →
      seededCreatorCall m f u inp = (f inp).map (fun o => (o, u))) ∧
    (∀ (a : String) (mx : Nat) (f : CreatorInput → Except String CreatorOutput)
      (r : ReviewerFn),
      run_review_loop_engine a mx (seededCreatorCall m f) false r none =
      run_review_loop_engine a mx (liftCreator (seedOnFresh m f)) () r none) := by
  refine ⟨?_, ?_, ?_, ?_, ?_⟩
  · cases l with
    | nil => simp at hlen
    | cons c rest =>
      rw [select_seed_candidate, Option.some.injEq]
      refine select_fold_max m rest c ?_ ?_ ?_
      · rcases List.mem_cons.mp hm with h | h
        · exact Or.inl h.symm
        · exact Or.inr h
      · intro hne
        exact hmax c (List.mem_cons_self c rest) hne
      · intro c' hc' hne
        exact hmax c' (List.mem_cons_of_mem _ hc') hne
  · intro f inp h
    rw [seededCreatorCall, if_pos ⟨rfl, h⟩]
  · intro f inp
    rw [seededCreatorCall, if_neg (by simp)]
  · intro f inp u h
    rw [seededCreatorCall, if_neg (by simp [h])]
  · intro a mx f r
    exact engine_seeded_eq a mx m f r

def c8exOld : Candidate := ⟨"aaa", "description", .plain, "old draft", 0, []⟩

def c8exNew : Candidate := ⟨"bbb", "description", .plain, "new draft", 1, []⟩

def c8exCreator : CreatorInput → Except String CreatorOutput :=
  fun inp => .ok ⟨mkCand "s1" "seeded", false⟩

theorem c8_witness :
    select_seed_candidate [c8exOld, c8exNew] = some c8exNew ∧
    seededCreatorCall c8exNew c8exCreator false ⟨"description", 1, none, none⟩ =
      (c8exCreator ⟨"description", 1, some c8exNew, none⟩).map (fun o => (o, true)) := by
  have h := c8_seed_resolution [c8exOld, c8exNew] c8exNew (by decide) (by decide) (by decide)
  exact ⟨h.1, h.2.1 c8exCreator ⟨"description", 1, none, none⟩ rfl⟩

/-- The selected-candidate pointer an aggregate workspace records for an
asset. -/
def assetPointer (ws : EpisodeWorkspace) (asset_id : String) : Option String :=
  match ws.assets.find? (fun a => a.asset_id = asset_id) with
  | some a => a.selected_candidate_id
  | none => none

/-- Persisting protocol documents touches neither selected texts nor
`state.json`. -/
theorem write_protocol_files_frame :
    ∀ (writes : List ProtocolWrite) (s : Store),
      (write_protocol_files s writes).selectedTexts = s.selectedTexts ∧
      (write_protocol_files s writes).stateDoc = s.stateDoc := by
  intro writes
  induction writes with
  | nil => intro s; exact ⟨rfl, rfl⟩
  | cons w rest ih =>
    intro s
    have hstep : write_protocol_files s (w :: rest) =
        write_protocol_files
          { s with protocolDocs := upsertEntry s.protocolDocs w.path w.json_data } rest := by
      unfold write_protocol_files
      rw [List.foldl_cons]
    rw [hstep]
    exact ih _

/-- Writing a candidate document touches neither selected texts nor
`state.json`. -/
theorem store_write_candidate_frame (mdToHtml : String → String) (s : Store) (c : Candidate)
    {s2 : Store} (h : store_write_candidate mdToHtml s c = .ok s2) :
    s2.selectedTexts = s.selectedTexts ∧ s2.stateDoc = s.stateDoc := by
  rw [store_write_candidate] at h
  cases hseg : safePathSegment c.asset_id with
  | error e =>
    rw [hseg] at h
    exact absurd h (by simp [bind, Except.bind])
  | ok seg =>
    rw [hseg] at h
    simp only [bind, Except.bind] at h
    cases hp : candidate_text_path c.asset_id c.candidate_id c.format with
    | error e =>
      rw [hp] at h
      exact absurd h (by simp)
    | ok tp =>
      rw [hp] at h
      simp only at h
      by_cases hf : c.format = TextFormat.markdown
      · rw [if_pos hf] at h
        cases hp2 : candidate_text_path c.asset_id c.candidate_id TextFormat.html with
        | error e =>
          rw [hp2] at h
          exact absurd h (by simp)
        | ok hp' =>
          rw [hp2] at h
          simp only [Except.ok.injEq] at h
          subst h
          exact ⟨rfl, rfl⟩
      · rw [if_neg hf] at h
        simp only [Except.ok.injEq] at h
        subst h
        exact ⟨rfl, rfl⟩

/-- Writing a review document touches neither selected texts nor
`state.json`. -/
theorem store_write_review_frame (s : Store) (asset_id : String) (r : ReviewIteration)
    {s2 : Store} (h : store_write_review s asset_id r = .ok s2) :
    s2.selectedTexts = s.selectedTexts ∧ s2.stateDoc = s.stateDoc := by
  rw [store_write_review] at h
  cases hp : review_iteration_json_path asset_id r.iteration r.reviewer with
  | error e =>
    rw [hp] at h
    exact absurd h (by simp [bind, Except.bind])
  | ok p =>
    rw [hp] at h
    simp only [bind, Except.bind, Except.ok.injEq] at h
    subst h
    exact ⟨rfl, rfl⟩

/-- The per-iteration commit loop touches neither selected texts nor
`state.json`. -/
theorem write_iteration_artifacts_frame (mdToHtml : String → String) (asset_id : String) :
    ∀ (its : List LoopProtocolIteration) (s s2 : Store),
      write_iteration_artifacts mdToHtml s asset_id its = .ok s2 →
      s2.selectedTexts = s.selectedTexts ∧ s2.stateDoc = s.stateDoc := by
  intro its
  induction its with
  | nil =>
    intro s s2 h
    rw [write_iteration_artifacts] at h
    simp only [Except.ok.injEq] at h
    subst h
    exact ⟨rfl, rfl⟩
  | cons it rest ih =>
    intro s s2 h
    rw [write_iteration_artifacts] at h
    simp only [bind, Except.bind] at h
    cases hc : store_write_candidate mdToHtml s it.candidate with
    | error e =>
      rw [hc] at h
      exact absurd h (by simp)
    | ok sa =>
      rw [hc] at h
      simp only at h
      cases hr : store_write_review sa asset_id it.review with
      | error e =>
        rw [hr] at h
        exact absurd h (by simp)
      | ok sb =>
        rw [hr] at h
        simp only at h
        obtain ⟨e1, e2⟩ := ih sb s2 h
        obtain ⟨f1, f2⟩ := store_write_review_frame sa asset_id it.review hr
        obtain ⟨g1, g2⟩ := store_write_candidate_frame mdToHtml s it.candidate hc
        exact ⟨by rw [e1, f1, g1], by rw [e2, f2, g2]⟩

/-- `_write_workspace_state` keeps the selected texts, stores an aggregate
whose entry for the asset carries exactly the supplied pointer. -/
theorem write_workspace_state_spec (s : Store) (asset_id : String)
    (ps : LoopProtocolState) (sel : Option String) {s2 : Store}
    (h : write_workspace_state s asset_id ps sel = .ok s2) :
    s2.selectedTexts = s.selectedTexts ∧
    ∃ ws', s2.stateDoc = some ws' ∧
      (∃ a' : Asset, ws'.assets.find? (fun a => a.asset_id = asset_id) = some a' ∧
        a'.selected_candidate_id = sel) := by
  rw [write_workspace_state] at h
  simp only [bind, Except.bind] at h
  cases hmk : mkAsset asset_id (assetKindOfString asset_id)
      (ps.iterations.map (·.candidate)) (ps.iterations.map (·.review)) sel with
  | error e =>
    rw [hmk] at h
    exact absurd h (by simp)
  | ok asset =>
    rw [hmk] at h
    simp only [store_write_state, Except.ok.injEq] at h
    subst h
    have hasset : asset = ⟨asset_id, assetKindOfString asset_id,
        ps.iterations.map (·.candidate), ps.iterations.map (·.review), sel⟩ := by
      rw [mkAsset] at hmk
      by_cases hv : validAsset ⟨asset_id, assetKindOfString asset_id,
          ps.iterations.map (·.candidate), ps.iterations.map (·.review), sel⟩
      · rw [if_pos hv] at hmk
        simp only [Except.ok.injEq] at hmk
        exact hmk.symm
      · rw [if_neg hv] at hmk
        exact absurd hmk (by simp)
    refine ⟨rfl, _, rfl, asset, ?_, ?_⟩
    · have := find?_upsert_asset asset (load_workspace s).assets
      simpa [hasset] using this
    · rw [hasset]

/-- When the loop state's decision is `needs_human`, the commit step writes no
selected text and records a null selected-candidate pointer for the asset. -/
theorem write_loop_artifacts_needs_human (mdToHtml : String → String) (s : Store)
    (asset_id : String) (ps : LoopProtocolState) {s2 : Store} {d : LoopDecision}
    (hd : ps.decision = some d) (hout : d.outcome = .needs_human)
    (h : write_loop_artifacts mdToHtml s asset_id ps = .ok s2) :
    s2.selectedTexts = s.selectedTexts ∧
    ∃ ws', s2.stateDoc = some ws' ∧ assetPointer ws' asset_id = none := by
  rw [write_loop_artifacts] at h
  simp only [bind, Except.bind] at h
  cases hit : write_iteration_artifacts mdToHtml s asset_id ps.iterations with
  | error e =>
    rw [hit] at h
    exact absurd h (by simp)
  | ok sa =>
    rw [hit] at h
    simp only at h
    obtain ⟨f1, f2⟩ := write_iteration_artifacts_frame mdToHtml asset_id ps.iterations s sa hit
    have hwws : write_workspace_state sa asset_id ps none = .ok s2 := by
      cases hg : ps.iterations.getLast? with
      | none =>
        rw [hg] at h
        exact h
      | some fin =>
        rw [hg, hd] at h
        simp only at h
        rw [if_neg (by rw [hout]; simp)] at h
        exact h
    obtain ⟨w1, ws', hws, a', hfind, hsel⟩ := write_workspace_state_spec sa asset_id ps none hwws
    refine ⟨by rw [w1, f1], ws', hws, ?_⟩
    rw [assetPointer, hfind]
    simp [hsel]

/-- After a `needs_human` decision the commit step (protocol files, then loop
artifacts) keeps the selected texts of the original store and records a null
pointer. -/
theorem orchestrator_commit_needs_human (mdToHtml : String → String) (store : Store)
    (asset_id : String) {ps : LoopProtocolState} {pw : List ProtocolWrite} {s2 : Store}
    {d : LoopDecision}
    (hart : write_loop_artifacts mdToHtml (write_protocol_files store pw) asset_id ps = .ok s2)
    (hd : ps.decision = some d) (hout : d.outcome = .needs_human) :
    s2.selectedTexts = store.selectedTexts ∧
    ∃ ws', s2.stateDoc = some ws' ∧ assetPointer ws' asset_id = none := by
  obtain ⟨e1, ews⟩ :=
    write_loop_artifacts_needs_human mdToHtml (write_protocol_files store pw) asset_id ps
      hd hout hart
  obtain ⟨p1, _⟩ := write_protocol_files_frame pw store
  exact ⟨by rw [e1, p1], ews⟩

/-- C6 (amended): a completed orchestrator run whose decision is `needs_human`
leaves every selected-text artifact unchanged, and stores an aggregate whose
selected-candidate pointer for the asset is null. -/
theorem c6_needs_human_frame (mdToHtml : String → String) (store : Store)
    (asset_id : String) (mx : Nat) (creator : CreatorInput → Except String CreatorOutput)
    (reviewer : ReviewerFn) (seedc : Option Candidate)
    {st : LoopProtocolState} {store' : Store}
    (hrun : run_review_loop_orchestrator mdToHtml store asset_id mx creator reviewer seedc =
      .ok (st, store'))
    {d : LoopDecision} (hd : st.decision = some d) (hout : d.outcome = .needs_human) :
    store'.selectedTexts = store.selectedTexts ∧
    ∃ ws', store'.stateDoc = some ws' ∧ assetPointer ws' asset_id = none := by
  rw [run_review_loop_orchestrator.eq_def] at hrun
  simp only [bind, Except.bind, pure, Except.pure] at hrun
  cases seedc with
  | some c =>
    simp only at hrun
    cases hengine : run_review_loop_engine asset_id mx (seededCreatorCall c creator) false
        (wrap_reviewer_with_locked_decisions store reviewer) none with
    | error e =>
      rw [hengine] at hrun
      simp at hrun
    | ok pr =>
      obtain ⟨ps, pw⟩ := pr
      rw [hengine] at hrun
      simp only at hrun
      cases hart : write_loop_artifacts mdToHtml (write_protocol_files store pw)
          asset_id ps with
      | error e =>
        rw [hart] at hrun
        simp at hrun
      | ok s2 =>
        rw [hart] at hrun
        simp only [Except.ok.injEq, Prod.mk.injEq] at hrun
        obtain ⟨h1, h2⟩ := hrun
        subst h1
        subst h2
        exact orchestrator_commit_needs_human mdToHtml store asset_id hart hd hout
  | none =>
    simp only at hrun
    cases hload : load_seed_candidates store asset_id with
    | error e =>
      rw [hload] at hrun
      simp at hrun
    | ok l =>
      rw [hload] at hrun
      simp only at hrun
      cases hsel : select_seed_candidate l with
      | none =>
        rw [hsel] at hrun
        simp only at hrun
        cases hengine : run_review_loop_engine asset_id mx
            (fun b inp => (creator inp).map (fun o => (o, b))) false
            (wrap_reviewer_with_locked_decisions store reviewer) none with
        | error e =>
          rw [hengine] at hrun
          simp at hrun
        | ok pr =>
          obtain ⟨ps, pw⟩ := pr
          rw [hengine] at hrun
          simp only at hrun
          cases hart : write_loop_artifacts mdToHtml (write_protocol_files store pw)
              asset_id ps with
          | error e =>
            rw [hart] at hrun
            simp at hrun
          | ok s2 =>
            rw [hart] at hrun
            simp only [Except.ok.injEq, Prod.mk.injEq] at hrun
            obtain ⟨h1, h2⟩ := hrun
            subst h1
            subst h2
            exact orchestrator_commit_needs_human mdToHtml store asset_id hart hd hout
      | some sc =>
        rw [hsel] at hrun
        simp only at hrun
        cases hengine : run_review_loop_engine asset_id mx (seededCreatorCall sc creator) false
            (wrap_reviewer_with_locked_decisions store reviewer) none with
        | error e =>
          rw [hengine] at hrun
          simp at hrun
        | ok pr =>
          obtain ⟨ps, pw⟩ := pr
          rw [hengine] at hrun
          simp only at hrun
          cases hart : write_loop_artifacts mdToHtml (write_protocol_files store pw)
              asset_id ps with
          | error e =>
            rw [hart] at hrun
            simp at hrun
          | ok s2 =>
            rw [hart] at hrun
            simp only [Except.ok.injEq, Prod.mk.injEq] at hrun
            obtain ⟨h1, h2⟩ := hrun
            subst h1
            subst h2
            exact orchestrator_commit_needs_human mdToHtml store asset_id hart hd hout

/-! ## Concrete data for the C6 and C4 claims -/

def c6exPriorCand : Candidate := ⟨"p0", "description", .plain, "picked", 0, []⟩

def c6exPrior : Asset := ⟨"description", some .description, [c6exPriorCand], [], some "p0"⟩

def c6exWs : EpisodeWorkspace := ⟨"ep_001", ".", [c6exPrior]⟩

def c6exStore : Store := ⟨[], [], [], [], [], some c6exWs, some "ep_001", "ep_001"⟩

def c6exCreator : CreatorInput → Except String CreatorOutput :=
  fun _ => .ok ⟨mkCand "c1" "d", false⟩

def c6exReviewer : ReviewerFn := fun inp => .ok (mkReview inp.iteration .changes_requested)

def c6exRun : Except String (LoopProtocolState × Store) :=
  run_review_loop_orchestrator (fun s => s) c6exStore "description" 1 c6exCreator
    c6exReviewer none

def c6exIt : LoopProtocolIteration := ⟨1, false, mkCand "c1" "d", mkReview 1 .changes_requested⟩

def c6exState : LoopProtocolState :=
  { asset_id := "description", max_iterations := 1, iterations := [c6exIt],
    decision := some (terminal_decision .needs_human 1 "iteration_limit") }

def c6exAssetAfter : Asset :=
  ⟨"description", some .description, [mkCand "c1" "d"], [mkReview 1 .changes_requested], none⟩

def c6exWsAfter : EpisodeWorkspace := ⟨"ep_001", ".", [c6exAssetAfter]⟩

def c6exStoreAfter : Store :=
  { candidateDocs := [("description", "candidate_c1.json", mkCand "c1" "d")]
    candidateTexts := [("copy/candidates/description/candidate_c1.txt", "d\n")]
    reviewDocs := [("copy/reviews/description/iteration_01.json", mkReview 1 .changes_requested)]
    selectedTexts := []
    protocolDocs :=
      [("copy/protocol/description/iteration_01.json", .iterationData c6exIt),
       ("copy/protocol/description/state.json", .stateData c6exState)]
    stateDoc := some c6exWsAfter
    episodeYamlId := some "ep_001"
    rootName := "ep_001" }

/-- The concrete C6 run completes as computed above. -/
theorem c6exRun_eq : c6exRun = .ok (c6exState, c6exStoreAfter) := by rfl

/-- C6 counterexample: before this `needs_human` run the aggregate pointer for
`description` is `some "p0"`; after it the pointer is `none` — the run does
change the asset's existing selection state, refuting the claim that the
selected-candidate pointer is the same after the run as before it. -/
theorem c6_counterexample :
    assetPointer c6exWs "description" = some "p0" ∧
    c6exRun = .ok (c6exState, c6exStoreAfter) ∧
    c6exState.decision = some (terminal_decision .needs_human 1 "iteration_limit") ∧
    c6exStoreAfter.stateDoc = some c6exWsAfter ∧
    assetPointer c6exWsAfter "description" = none ∧
    some "p0" ≠ (none : Option String) := by
  refine ⟨by rfl, c6exRun_eq, rfl, rfl, by rfl, by simp⟩

theorem c6_witness :
    c6exStoreAfter.selectedTexts = c6exStore.selectedTexts ∧
    assetPointer c6exWsAfter "description" = none := by
  obtain ⟨h1, ws', hws, hptr⟩ := c6_needs_human_frame (fun s => s) c6exStore "description" 1
    c6exCreator c6exReviewer none c6exRun_eq rfl rfl
  have hws' : ws' = c6exWsAfter := by
    have h2 : some ws' = some c6exWsAfter := by
      rw [← hws]
      rfl
    simpa using h2
  exact ⟨h1, hws' ▸ hptr⟩

def c4exWs : EpisodeWorkspace := ⟨"ep_001", ".", []⟩

def c4exStore : Store := ⟨[], [], [], [], [], some c4exWs, some "ep_001", "ep_001"⟩

/-- A valid creator whose output records whether it was handed a previous
candidate: on a truly fresh loop it drafts `"draft"`, after seeding it drafts
`"redraft"`. -/
def c4exCreator : CreatorInput → Except String CreatorOutput :=
  fun inp =>
    if inp.previous_candidate = none then .ok ⟨mkCand "c1" "draft", false⟩
    else .ok ⟨mkCand "c2" "redraft", false⟩

def c4exReviewer : ReviewerFn := fun inp => .ok (mkReview inp.iteration .changes_requested)

def c4exRun1 : Except String (LoopProtocolState × Store) :=
  run_review_loop_orchestrator (fun s => s) c4exStore "description" 1 c4exCreator
    c4exReviewer none

/-- The same orchestrator invocation again, on the workspace the first one
left behind. -/
def c4exRun2 : Except String (LoopProtocolState × Store) :=
  match c4exRun1 with
  | .ok (_, s) =>
    run_review_loop_orchestrator (fun t => t) s "description" 1 c4exCreator c4exReviewer none
  | .error e => .error e

/-- The loop state a completed orchestrator run returns. -/
def runState (r : Except String (LoopProtocolState × Store)) : Option LoopProtocolState :=
  match r with
  | .ok (st, _) => some st
  | .error _ => none

/-- C4, evaluated at the failing input: the first run ends in the terminal
outcome `needs_human`, yet re-invoking the orchestrator with the same
arguments executes a fresh loop iteration (the creator and reviewer run
again — the re-run records an iteration whose candidate was drafted from the
re-loaded seed) and returns a loop state different from the first run's.  The
orchestrator never reloads the persisted `LoopProtocolState`, so the engine's
frozen-state no-op short circuit is never exercised by it. -/
theorem c4_rerun_executes_new_iterations :
    (runState c4exRun1).map (fun st => st.decision.map (fun d => d.outcome)) =
      some (some .needs_human) ∧
    (runState c4exRun1).map (fun st => st.iterations.map (fun it => it.candidate.content)) =
      some ["draft"] ∧
    (runState c4exRun2).map (fun st => st.iterations.map (fun it => it.candidate.content)) =
      some ["redraft"] ∧
    runState c4exRun2 ≠ runState c4exRun1 := by
  refine ⟨by rfl, by rfl, by rfl, by decide⟩
